import Mathlib

/-!
Verification of the DataScienceLib repository's natural-language specification
against a shallow embedding of its Python sources.

Series are modelled as `List (Option ℚ)` (a nullable polars Series; exact
rational arithmetic stands in for floats, which is faithful since every
operation used by the code — interpolation, means, differences — is rational
on rational inputs).  Fallible code returns `Option` (`none` = a raised
Python exception).  Frames are row-major lists of cells aligned with a
header.  Definitions follow the corresponding Python functions statement by
statement; external library primitives (polars `interpolate`, `diff`,
`mean`, `fill_null`, numpy slicing) are embedded with their documented
semantics.
-/

namespace DSL

/-- A polars Series of nullable numeric values. -/
abbrev Series := List (Option ℚ)

/-- Cell access by position; out of range or missing is null
(polars positional semantics). -/
def getCell (l : Series) (i : ℕ) : Option ℚ := l.getD i none

/-- Indices of the non-null entries, ascending (polars
`is_not_null().arg_true()`). -/
def nnIdxs (l : Series) : List ℕ :=
  (List.range l.length).filter fun i => (getCell l i).isSome

/-- `Series.drop_nulls`. -/
def dropNulls (l : Series) : List ℚ := l.filterMap id

/-- First non-null index (`is_not_null().arg_true().first()`). -/
def firstNN (l : Series) : Option ℕ := (nnIdxs l).head?

/-- Last non-null index (`is_not_null().arg_true().last()`). -/
def lastNN (l : Series) : Option ℕ := (nnIdxs l).getLast?

/-- Greatest non-null index strictly below `k` (used to embed interpolation). -/
def prevNN (l : Series) (k : ℕ) : Option ℕ :=
  ((nnIdxs l).filter fun i => i < k).getLast?

/-- Least non-null index strictly above `k` (used to embed interpolation). -/
def nextNN (l : Series) (k : ℕ) : Option ℕ :=
  ((nnIdxs l).filter fun i => k < i).head?

/-- Null-ignoring mean (`Series.mean`); `none` on an all-null series. -/
def meanOpt (l : Series) : Option ℚ :=
  let vs := dropNulls l
  if vs.isEmpty then none else some (vs.sum / (vs.length : ℚ))

/-- Null-ignoring median (`Series.median`, linear-interpolation quantile):
middle element of the sorted non-null values, or the average of the two
middle elements. -/
def medianOpt (l : Series) : Option ℚ :=
  let vs := (dropNulls l).mergeSort fun a b => a ≤ b
  if vs.length = 0 then none
  else if vs.length % 2 = 1 then some (vs.getD (vs.length / 2) 0)
  else some ((vs.getD (vs.length / 2 - 1) 0 + vs.getD (vs.length / 2) 0) / 2)

/-- `Series.diff(n=1)`: null at position 0 and wherever either operand is
null, else the difference with the previous element. -/
def diff1 (l : Series) : Series :=
  (List.range l.length).map fun i =>
    if i = 0 then none
    else
      match getCell l i, getCell l (i - 1) with
      | some a, some b => some (a - b)
      | _, _ => none

/-- `Series.fill_null(value=v)`: polars raises when no fill value is given
(`v = none`), hence the `Option` result. -/
def fillNullValue (v : Option ℚ) (l : Series) : Option Series :=
  match v with
  | none => none
  | some x => some (l.map fun c => some (c.getD x))

/-- The two interpolation methods accepted by the Extrapolator. -/
inductive InterpMethod
  | linear
  | nearest
deriving DecidableEq

/-- Value of `Series.interpolate(method)` at position `k`: non-null entries
are kept; a null entry strictly between two non-null entries is filled
(linear: proportional blend by position; nearest: the closer neighbour,
preferring the earlier one at equal distance); nulls before the first or
after the last non-null entry remain null. -/
def interpAt (m : InterpMethod) (l : Series) (k : ℕ) : Option ℚ :=
  match getCell l k with
  | some v => some v
  | none =>
    match prevNN l k, nextNN l k with
    | some i, some j =>
      match getCell l i, getCell l j with
      | some a, some b =>
        match m with
        | .linear => some (a + (b - a) * (((k : ℚ) - (i : ℚ)) / ((j : ℚ) - (i : ℚ))))
        | .nearest => some (if k - i ≤ j - k then a else b)
      | _, _ => none
    | _, _ => none

/-- `Series.interpolate(method)`. -/
def interpolate (m : InterpMethod) (l : Series) : Series :=
  (List.range l.length).map (interpAt m l)

/-- Configuration of `Extrapolator.__init__`
(extrapolator.py lines 5-28). -/
structure Extrapolator where
  interpolation_method : InterpMethod := .linear
  fill_value_if_only_null_values : Option ℚ := none
  val_before_first_non_null_val : Option ℚ := none
  val_after_last_non_null_val : Option ℚ := none

/-- `Extrapolator.fill_regular` (extrapolator.py lines 30-102): interpolate,
handle the all-null and single-non-null series, otherwise pin index 0 to
`first_val` (when the first non-null index is positive) and the last index
to `last_val` (when the last non-null index is interior), then linearly
interpolate again.  `none` models a raised exception. -/
def Extrapolator.fill_regular (e : Extrapolator) (col0 : Series) : Option Series :=
  let col := interpolate e.interpolation_method col0
  let no_nulls := dropNulls col
  if no_nulls.length = 0 then fillNullValue e.fill_value_if_only_null_values col
  else if no_nulls.length = 1 then fillNullValue (medianOpt col) col
  else
    match meanOpt (diff1 col), no_nulls.head?, firstNN col, no_nulls.getLast?, lastNN col with
    | some avg, some fnn, some fi, some lnn, some li =>
      let n := col.length
      let first_val : ℚ := fnn - avg * (fi : ℚ)
      let last_val : ℚ := lnn + avg * ((max 0 ((n : ℤ) - 1 - (li : ℤ)) : ℤ) : ℚ)
      let col2 : Series := (List.range n).map fun i =>
        if i = 0 ∧ 0 < fi then some first_val
        else if i = n - 1 ∧ li < n - 1 then some last_val
        else getCell col i
      some (interpolate .linear col2)
    | _, _, _, _, _ => none

/-- `Extrapolator.fill_timeseries` (extrapolator.py lines 104-242): when
both boundary values are `None` it delegates to `fill_regular`; otherwise
it interpolates, handles the all-null and single-non-null series (this time
via the mean), and then rewrites each edge: a literal boundary value is
written at every null position outside the observed range on that side, a
`None` boundary value yields the linear-extrapolation formula. -/
def Extrapolator.fill_timeseries (e : Extrapolator) (col0 : Series) : Option Series :=
  if e.val_before_first_non_null_val = none ∧ e.val_after_last_non_null_val = none then
    e.fill_regular col0
  else
    let col := interpolate e.interpolation_method col0
    let no_nulls := dropNulls col
    if no_nulls.length = 0 then fillNullValue e.fill_value_if_only_null_values col
    else if no_nulls.length = 1 then fillNullValue (meanOpt col) col
    else
      match meanOpt (diff1 col), no_nulls.head?, firstNN col, no_nulls.getLast?, lastNN col with
      | some avg, some fnn, some fi, some lnn, some li =>
        let n := col.length
        let first_val : ℚ := fnn - avg * (fi : ℚ)
        let last_val : ℚ := lnn + avg * ((max 0 ((n : ℤ) - 1 - (li : ℤ)) : ℤ) : ℚ)
        let step1 : Series := (List.range n).map fun i =>
          match e.val_before_first_non_null_val with
          | some v => if i < fi ∧ getCell col i = none then some v else getCell col i
          | none =>
            if i ≤ fi ∧ getCell col i = none then some (first_val + avg * (i : ℚ))
            else getCell col i
        let step2 : Series := (List.range n).map fun i =>
          match e.val_after_last_non_null_val with
          | some v => if li ≤ i ∧ getCell step1 i = none then some v else getCell step1 i
          | none =>
            if li ≤ i ∧ getCell step1 i = none then
              some (last_val - avg * ((n : ℚ) - 1 - (i : ℚ)))
            else getCell step1 i
        some step2
      | _, _, _, _, _ => none

/-- The example series `[None, None, 5, 6, 7, None, 9, None]` used by the
spec's testable properties. -/
def exSeries : Series := [none, none, some 5, some 6, some 7, none, some 9, none]

/-! ### Positional lemmas about the series primitives -/

lemma getCell_map_range (f : ℕ → Option ℚ) {n k : ℕ} (hk : k < n) :
    getCell ((List.range n).map f) k = f k := by
  simp [getCell, List.getD_eq_getElem?_getD, List.getElem?_map, List.getElem?_range hk]

lemma getCell_eq_none_of_len_le {l : Series} {k : ℕ} (h : l.length ≤ k) :
    getCell l k = none := by
  simp [getCell, List.getD_eq_getElem?_getD, List.getElem?_eq_none h]

lemma getCell_some_lt {l : Series} {k : ℕ} {v : ℚ} (h : getCell l k = some v) :
    k < l.length := by
  by_contra hk
  rw [getCell_eq_none_of_len_le (Nat.le_of_not_lt hk)] at h
  exact Option.noConfusion h

lemma getCell_isSome_lt {l : Series} {k : ℕ} (h : (getCell l k).isSome = true) :
    k < l.length := by
  obtain ⟨v, hv⟩ := Option.isSome_iff_exists.mp h
  exact getCell_some_lt hv

lemma mem_nnIdxs {l : Series} {i : ℕ} :
    i ∈ nnIdxs l ↔ i < l.length ∧ (getCell l i).isSome = true := by
  simp [nnIdxs, List.mem_filter, List.mem_range]

lemma nnIdxs_pairwise (l : Series) : (nnIdxs l).Pairwise (· < ·) :=
  List.Pairwise.filter _ (List.pairwise_lt_range l.length)

lemma nnIdxs_nodup (l : Series) : (nnIdxs l).Nodup :=
  (nnIdxs_pairwise l).imp Nat.ne_of_lt

lemma head?_eq_of_min {l : List ℕ} {a : ℕ} (hp : l.Pairwise (· < ·)) (ha : a ∈ l)
    (hmin : ∀ b ∈ l, a ≤ b) : l.head? = some a := by
  cases l with
  | nil => cases ha
  | cons b t =>
    rcases List.mem_cons.mp ha with h | h
    · simp [h]
    · have h1 : b < a := (List.pairwise_cons.mp hp).1 a h
      have h2 : a ≤ b := hmin b (List.mem_cons_self b t)
      omega

lemma getLast?_eq_of_max {l : List ℕ} {a : ℕ} (hp : l.Pairwise (· < ·)) (ha : a ∈ l)
    (hmax : ∀ b ∈ l, b ≤ a) : l.getLast? = some a := by
  induction l with
  | nil => cases ha
  | cons b t ih =>
    cases t with
    | nil =>
      rcases List.mem_cons.mp ha with h | h
      · simp [h]
      · cases h
    | cons c t2 =>
      rw [List.getLast?_cons_cons]
      have hbt : ∀ x ∈ (c :: t2), b < x := (List.pairwise_cons.mp hp).1
      have ha2 : a ∈ c :: t2 := by
        rcases List.mem_cons.mp ha with h | h
        · exfalso
          have h1 : b < c := hbt c (List.mem_cons_self c t2)
          have h2 : c ≤ a := hmax c (by simp)
          omega
        · exact h
      exact ih (List.pairwise_cons.mp hp).2 ha2
        (fun x hx => hmax x (List.mem_cons_of_mem _ hx))

lemma firstNN_min {l : Series} {fi : ℕ} (h : firstNN l = some fi) :
    fi ∈ nnIdxs l ∧ ∀ j ∈ nnIdxs l, fi ≤ j := by
  cases hn : nnIdxs l with
  | nil => rw [firstNN, hn] at h; cases h
  | cons b t =>
    rw [firstNN, hn] at h
    simp only [List.head?_cons, Option.some.injEq] at h
    subst h
    have hp := nnIdxs_pairwise l
    rw [hn] at hp
    refine ⟨List.mem_cons_self _ _, ?_⟩
    intro j hj
    rcases List.mem_cons.mp hj with h | h
    · omega
    · exact Nat.le_of_lt ((List.pairwise_cons.mp hp).1 j h)

lemma getLast?_max_of_sorted {l : List ℕ} {a : ℕ} (hp : l.Pairwise (· < ·))
    (h : l.getLast? = some a) : ∀ b ∈ l, b ≤ a := by
  induction l with
  | nil => cases h
  | cons b t ih =>
    cases t with
    | nil =>
      simp only [List.getLast?_singleton, Option.some.injEq] at h
      intro c hc
      rcases List.mem_cons.mp hc with h1 | h1
      · omega
      · cases h1
    | cons c t2 =>
      rw [List.getLast?_cons_cons] at h
      have hrec := ih (List.pairwise_cons.mp hp).2 h
      intro x hx
      rcases List.mem_cons.mp hx with h1 | h1
      · have h2 : b < c := (List.pairwise_cons.mp hp).1 c (List.mem_cons_self c t2)
        have h3 : c ≤ a := hrec c (List.mem_cons_self c t2)
        omega
      · exact hrec x h1

lemma lastNN_max {l : Series} {li : ℕ} (h : lastNN l = some li) :
    li ∈ nnIdxs l ∧ ∀ j ∈ nnIdxs l, j ≤ li :=
  ⟨List.mem_of_mem_getLast? (Option.mem_def.mpr h), getLast?_max_of_sorted (nnIdxs_pairwise l) h⟩

lemma firstNN_eq_some {l : Series} {a : ℕ} (ha : a ∈ nnIdxs l)
    (hmin : ∀ j ∈ nnIdxs l, a ≤ j) : firstNN l = some a :=
  head?_eq_of_min (nnIdxs_pairwise l) ha hmin

lemma lastNN_eq_some {l : Series} {a : ℕ} (ha : a ∈ nnIdxs l)
    (hmax : ∀ j ∈ nnIdxs l, j ≤ a) : lastNN l = some a :=
  getLast?_eq_of_max (nnIdxs_pairwise l) ha hmax

lemma prevNN_eq_some {l : Series} {k a : ℕ} (ha : a ∈ nnIdxs l) (hak : a < k)
    (hmax : ∀ j ∈ nnIdxs l, j < k → j ≤ a) : prevNN l k = some a := by
  apply getLast?_eq_of_max (List.Pairwise.filter _ (nnIdxs_pairwise l))
  · exact List.mem_filter.mpr ⟨ha, by simpa using hak⟩
  · intro b hb
    rcases List.mem_filter.mp hb with ⟨hb1, hb2⟩
    exact hmax b hb1 (by simpa using hb2)

lemma nextNN_eq_some {l : Series} {k a : ℕ} (ha : a ∈ nnIdxs l) (hak : k < a)
    (hmin : ∀ j ∈ nnIdxs l, k < j → a ≤ j) : nextNN l k = some a := by
  apply head?_eq_of_min (List.Pairwise.filter _ (nnIdxs_pairwise l))
  · exact List.mem_filter.mpr ⟨ha, by simpa using hak⟩
  · intro b hb
    rcases List.mem_filter.mp hb with ⟨hb1, hb2⟩
    exact hmin b hb1 (by simpa using hb2)

/-! ### Bridging `dropNulls` and `nnIdxs` -/

lemma nnIdxs_cons (x : Option ℚ) (t : Series) :
    nnIdxs (x :: t) = (if x.isSome then [0] else []) ++ (nnIdxs t).map (· + 1) := by
  show (List.range (t.length + 1)).filter _ = _
  rw [List.range_succ_eq_map, List.filter_cons]
  have h0 : getCell (x :: t) 0 = x := rfl
  have hs : ∀ i : ℕ, getCell (x :: t) (i + 1) = getCell t i := fun i => rfl
  rw [List.filter_map]
  have hcomp :
      ((fun i => (getCell (x :: t) i).isSome) ∘ Nat.succ) =
        fun i => (getCell t i).isSome := by
    funext i
    simp [Function.comp, hs i]
  rw [hcomp, h0]
  cases hx : x.isSome <;> simp [nnIdxs, Nat.succ_eq_add_one]

lemma dropNulls_cons_some (a : ℚ) (t : Series) :
    dropNulls (some a :: t) = a :: dropNulls t := rfl

lemma dropNulls_cons_none (t : Series) : dropNulls (none :: t) = dropNulls t := rfl

lemma length_dropNulls_eq (l : Series) : (dropNulls l).length = (nnIdxs l).length := by
  induction l with
  | nil => rfl
  | cons x t ih =>
    rw [nnIdxs_cons]
    cases x with
    | none => simpa [dropNulls_cons_none] using ih
    | some a => simpa [dropNulls_cons_some] using ih

lemma dropNulls_head?_eq {l : Series} {fi : ℕ} (h : firstNN l = some fi) :
    (dropNulls l).head? = getCell l fi := by
  induction l generalizing fi with
  | nil => cases h
  | cons x t ih =>
    cases x with
    | some a =>
      have h0 : firstNN (some a :: t) = some 0 := by
        simp [firstNN, nnIdxs_cons]
      rw [h0] at h
      cases h
      simp [dropNulls_cons_some, getCell]
    | none =>
      rw [firstNN, nnIdxs_cons] at h
      simp only [Option.isSome_none, Bool.false_eq_true, if_false, List.nil_append,
        List.head?_map] at h
      obtain ⟨fi', hfi', hfi2⟩ := Option.map_eq_some'.mp h
      subst hfi2
      rw [dropNulls_cons_none]
      have : getCell (none :: t) (fi' + 1) = getCell t fi' := rfl
      rw [this]
      exact ih hfi'

lemma dropNulls_getLast?_eq {l : Series} {li : ℕ} (h : lastNN l = some li) :
    (dropNulls l).getLast? = getCell l li := by
  induction l generalizing li with
  | nil => cases h
  | cons x t ih =>
    rw [lastNN, nnIdxs_cons, List.getLast?_append, List.getLast?_map] at h
    cases ht : (nnIdxs t).getLast? with
    | some li' =>
      rw [ht] at h
      simp only [Option.map_some', Option.or_some, Option.some.injEq] at h
      subst h
      have hstep : getCell (x :: t) (li' + 1) = getCell t li' := rfl
      have hrec := ih (by rw [lastNN, ht])
      cases x with
      | none => rw [dropNulls_cons_none, hstep]; exact hrec
      | some a =>
        rw [dropNulls_cons_some, hstep]
        have hne : dropNulls t ≠ [] := by
          intro hnil
          have hlen := length_dropNulls_eq t
          rw [hnil] at hlen
          have : nnIdxs t = [] := List.length_eq_zero.mp hlen.symm
          rw [this] at ht
          cases ht
        cases hd : dropNulls t with
        | nil => exact absurd hd hne
        | cons y ys => rw [hd] at hrec; rw [List.getLast?_cons_cons]; exact hrec
    | none =>
      rw [ht] at h
      have htnil : nnIdxs t = [] := by
        by_contra hne
        have h2 : (nnIdxs t).getLast?.isSome = true := List.getLast?_isSome.mpr hne
        rw [ht] at h2
        cases h2
      have htdrop : dropNulls t = [] := by
        have hlen := length_dropNulls_eq t
        rw [htnil] at hlen
        exact List.length_eq_zero.mp hlen
      cases x with
      | none => simp at h
      | some a =>
        simp only [Option.isSome_some, if_true, Option.map_none', Option.none_or,
          List.getLast?_singleton, Option.some.injEq] at h
        subst h
        rw [dropNulls_cons_some, htdrop]
        rfl

lemma nnIdxs_ne_nil_of_mem {l : Series} {i : ℕ} (h : i ∈ nnIdxs l) : nnIdxs l ≠ [] :=
  List.ne_nil_of_mem h

lemma dropNulls_length_pos_of_mem {l : Series} {i : ℕ} (h : i ∈ nnIdxs l) :
    0 < (dropNulls l).length := by
  rw [length_dropNulls_eq]
  exact List.length_pos_of_mem h

/-! ### The interpolated series -/

lemma length_interpolate (m : InterpMethod) (l : Series) :
    (interpolate m l).length = l.length := by
  simp [interpolate]

lemma getCell_interpolate {m : InterpMethod} {l : Series} {k : ℕ} (hk : k < l.length) :
    getCell (interpolate m l) k = interpAt m l k :=
  getCell_map_range _ hk

lemma getCell_interpolate_of_some {m : InterpMethod} {l : Series} {k : ℕ} {v : ℚ}
    (h : getCell l k = some v) : getCell (interpolate m l) k = some v := by
  rw [getCell_interpolate (getCell_some_lt h)]
  unfold interpAt
  rw [h]

lemma interpolate_outside {m : InterpMethod} {l : Series} {fi li k : ℕ}
    (hfi : firstNN l = some fi) (hli : lastNN l = some li)
    (hk : k < fi ∨ li < k) : getCell (interpolate m l) k = none := by
  by_cases hkn : k < l.length
  · rw [getCell_interpolate hkn]
    have hnull : getCell l k = none := by
      cases hc : getCell l k with
      | none => rfl
      | some v =>
        have hmem : k ∈ nnIdxs l := mem_nnIdxs.mpr ⟨hkn, by rw [hc]; rfl⟩
        rcases hk with h | h
        · have := (firstNN_min hfi).2 k hmem; omega
        · have := (lastNN_max hli).2 k hmem; omega
    unfold interpAt
    rw [hnull]
    rcases hk with h | h
    · have hprev : prevNN l k = none := by
        have hnil : ((nnIdxs l).filter fun i => i < k) = [] := by
          rw [List.filter_eq_nil_iff]
          intro a ha
          have := (firstNN_min hfi).2 a ha
          simp only [decide_eq_true_eq]
          omega
        rw [prevNN, hnil]
        rfl
      rw [hprev]
    · have hnext : nextNN l k = none := by
        have hnil : ((nnIdxs l).filter fun i => k < i) = [] := by
          rw [List.filter_eq_nil_iff]
          intro a ha
          have := (lastNN_max hli).2 a ha
          simp only [decide_eq_true_eq]
          omega
        rw [nextNN, hnil]
        rfl
      rw [hnext]
      cases prevNN l k <;> rfl
  · exact getCell_eq_none_of_len_le (by rw [length_interpolate]; omega)

lemma interpolate_inside_isSome {m : InterpMethod} {l : Series} {fi li k : ℕ}
    (hfi : firstNN l = some fi) (hli : lastNN l = some li)
    (h1 : fi ≤ k) (h2 : k ≤ li) :
    (getCell (interpolate m l) k).isSome = true := by
  have hfim := firstNN_min hfi
  have hlim := lastNN_max hli
  have hliLen : li < l.length := (mem_nnIdxs.mp hlim.1).1
  have hk : k < l.length := by omega
  rw [getCell_interpolate hk]
  cases hc : getCell l k with
  | some v => unfold interpAt; rw [hc]; rfl
  | none =>
    have hkfi : fi ≠ k := by
      rintro rfl
      have := (mem_nnIdxs.mp hfim.1).2
      rw [hc] at this
      cases this
    have hkli : k ≠ li := by
      rintro rfl
      have := (mem_nnIdxs.mp hlim.1).2
      rw [hc] at this
      cases this
    have hpne : ((nnIdxs l).filter fun i => i < k) ≠ [] := by
      intro hnil
      have hm : fi ∈ (nnIdxs l).filter fun i => i < k :=
        List.mem_filter.mpr ⟨hfim.1, by simp only [decide_eq_true_eq]; omega⟩
      rw [hnil] at hm
      cases hm
    obtain ⟨i, hi⟩ := Option.isSome_iff_exists.mp (List.getLast?_isSome.mpr hpne)
    have himem : i ∈ nnIdxs l :=
      (List.mem_filter.mp (List.mem_of_mem_getLast? (Option.mem_def.mpr hi))).1
    obtain ⟨a, ha⟩ := Option.isSome_iff_exists.mp (mem_nnIdxs.mp himem).2
    have hnne : ((nnIdxs l).filter fun i => k < i) ≠ [] := by
      intro hnil
      have hm : li ∈ (nnIdxs l).filter fun i => k < i :=
        List.mem_filter.mpr ⟨hlim.1, by simp only [decide_eq_true_eq]; omega⟩
      rw [hnil] at hm
      cases hm
    obtain ⟨j, hj⟩ := Option.isSome_iff_exists.mp (List.head?_isSome.mpr hnne)
    have hjmem : j ∈ nnIdxs l :=
      (List.mem_filter.mp (List.mem_of_mem_head? (Option.mem_def.mpr hj))).1
    obtain ⟨b, hb⟩ := Option.isSome_iff_exists.mp (mem_nnIdxs.mp hjmem).2
    have hprev : prevNN l k = some i := hi
    have hnext : nextNN l k = some j := hj
    unfold interpAt
    simp only [hc, hprev, hnext, ha, hb]
    cases m <;> rfl

lemma mem_nnIdxs_interpolate {m : InterpMethod} {l : Series} {fi li : ℕ}
    (hfi : firstNN l = some fi) (hli : lastNN l = some li) (k : ℕ) :
    k ∈ nnIdxs (interpolate m l) ↔ fi ≤ k ∧ k ≤ li := by
  have hliLen : li < l.length := (mem_nnIdxs.mp (lastNN_max hli).1).1
  constructor
  · intro hk
    rcases mem_nnIdxs.mp hk with ⟨_, hk2⟩
    rcases Nat.lt_or_ge k fi with h | h
    · rw [interpolate_outside hfi hli (Or.inl h)] at hk2
      cases hk2
    · rcases le_or_lt k li with h2 | h2
      · exact ⟨h, h2⟩
      · rw [interpolate_outside hfi hli (Or.inr h2)] at hk2
        cases hk2
  · rintro ⟨h1, h2⟩
    exact mem_nnIdxs.mpr ⟨by rw [length_interpolate]; omega,
      interpolate_inside_isSome hfi hli h1 h2⟩

lemma firstNN_interpolate {m : InterpMethod} {l : Series} {fi li : ℕ}
    (hfi : firstNN l = some fi) (hli : lastNN l = some li) :
    firstNN (interpolate m l) = some fi := by
  have hfl : fi ≤ li := (lastNN_max hli).2 fi (firstNN_min hfi).1
  apply firstNN_eq_some
  · exact (mem_nnIdxs_interpolate hfi hli fi).mpr ⟨le_rfl, hfl⟩
  · intro j hj
    exact ((mem_nnIdxs_interpolate hfi hli j).mp hj).1

lemma lastNN_interpolate {m : InterpMethod} {l : Series} {fi li : ℕ}
    (hfi : firstNN l = some fi) (hli : lastNN l = some li) :
    lastNN (interpolate m l) = some li := by
  have hfl : fi ≤ li := (lastNN_max hli).2 fi (firstNN_min hfi).1
  apply lastNN_eq_some
  · exact (mem_nnIdxs_interpolate hfi hli li).mpr ⟨hfl, le_rfl⟩
  · intro j hj
    exact ((mem_nnIdxs_interpolate hfi hli j).mp hj).2

lemma meanOpt_isSome_of_ne_nil {l : Series} (h : dropNulls l ≠ []) :
    meanOpt l = some ((dropNulls l).sum / ((dropNulls l).length : ℚ)) := by
  rw [meanOpt]
  simp only [List.isEmpty_iff, h, if_false]

lemma meanOpt_diff1_interpolate {m : InterpMethod} {l : Series} {fi li : ℕ}
    (hfi : firstNN l = some fi) (hli : lastNN l = some li) (hlt : fi < li) :
    ∃ avg, meanOpt (diff1 (interpolate m l)) = some avg := by
  have hliLen : li < l.length := (mem_nnIdxs.mp (lastNN_max hli).1).1
  have h1 : (getCell (interpolate m l) (fi + 1)).isSome = true :=
    interpolate_inside_isSome hfi hli (by omega) (by omega)
  have h0 : (getCell (interpolate m l) fi).isSome = true :=
    interpolate_inside_isSome hfi hli le_rfl (le_of_lt hlt)
  obtain ⟨a, ha⟩ := Option.isSome_iff_exists.mp h1
  obtain ⟨b, hb⟩ := Option.isSome_iff_exists.mp h0
  have hlen : fi + 1 < (interpolate m l).length := by rw [length_interpolate]; omega
  have hd : getCell (diff1 (interpolate m l)) (fi + 1) = some (a - b) := by
    rw [diff1, getCell_map_range _ hlen]
    simp only [Nat.succ_ne_zero, if_false, Nat.add_sub_cancel]
    rw [ha, hb]
  have hmem : (fi + 1) ∈ nnIdxs (diff1 (interpolate m l)) := by
    apply mem_nnIdxs.mpr
    refine ⟨?_, by rw [hd]; rfl⟩
    exact getCell_some_lt hd
  have hne : dropNulls (diff1 (interpolate m l)) ≠ [] := by
    intro hnil
    have := length_dropNulls_eq (diff1 (interpolate m l))
    rw [hnil] at this
    have h2 : nnIdxs (diff1 (interpolate m l)) = [] := List.length_eq_zero.mp this.symm
    rw [h2] at hmem
    cases hmem
  exact ⟨_, meanOpt_isSome_of_ne_nil hne⟩

lemma interpAt_of_some {m : InterpMethod} {l : Series} {k : ℕ} {v : ℚ}
    (h : getCell l k = some v) : interpAt m l k = some v := by
  unfold interpAt
  rw [h]

lemma interpAt_linear_eval {l : Series} {k i j : ℕ} {a b : ℚ}
    (hc : getCell l k = none) (hp : prevNN l k = some i) (hn : nextNN l k = some j)
    (ha : getCell l i = some a) (hb : getCell l j = some b) :
    interpAt .linear l k =
      some (a + (b - a) * (((k : ℚ) - (i : ℚ)) / ((j : ℚ) - (i : ℚ)))) := by
  unfold interpAt
  simp only [hc, hp, hn, ha, hb]

lemma two_le_dropNulls_length {l : Series} {fi li : ℕ}
    (hfi : firstNN l = some fi) (hli : lastNN l = some li) (hlt : fi < li) :
    2 ≤ (dropNulls l).length := by
  have hsub : [fi, li].Subperm (nnIdxs l) := by
    apply List.Nodup.subperm
    · simp [Nat.ne_of_lt hlt]
    · intro x hx
      rcases List.mem_cons.mp hx with h | h
      · subst h; exact (firstNN_min hfi).1
      · rcases List.mem_cons.mp h with h2 | h2
        · subst h2; exact (lastNN_max hli).1
        · cases h2
  rw [length_dropNulls_eq]
  simpa using hsub.length_le

/-- Characterization of `fill_regular` when the (interpolated) series has at
least two non-null values: the call succeeds, the slope is the null-ignoring
mean of the successive differences of the interpolated series, positions up
to the first non-null index follow the backward linear extrapolation from
the first observed value, positions from the last non-null index follow the
forward linear extrapolation from the last observed value, and the observed
range is exactly the interpolated series. -/
lemma fill_regular_main {e : Extrapolator} {col0 : Series} {fi li : ℕ} {fv lv : ℚ}
    (hfi : firstNN col0 = some fi) (hli : lastNN col0 = some li) (hlt : fi < li)
    (hfv : getCell col0 fi = some fv) (hlv : getCell col0 li = some lv) :
    ∃ avg out,
      meanOpt (diff1 (interpolate e.interpolation_method col0)) = some avg ∧
      e.fill_regular col0 = some out ∧
      out.length = col0.length ∧
      (∀ k, k ≤ fi → getCell out k = some (fv - avg * ((fi : ℚ) - (k : ℚ)))) ∧
      (∀ k, li ≤ k → k < col0.length →
        getCell out k = some (lv + avg * ((k : ℚ) - (li : ℚ)))) ∧
      (∀ k, fi ≤ k → k ≤ li →
        getCell out k = getCell (interpolate e.interpolation_method col0) k) := by
  set ic := interpolate e.interpolation_method col0 with hic
  have hfim := firstNN_min hfi
  have hlim := lastNN_max hli
  have hfiLen : fi < col0.length := (mem_nnIdxs.mp hfim.1).1
  have hliLen : li < col0.length := (mem_nnIdxs.mp hlim.1).1
  have hlen_ic : ic.length = col0.length := length_interpolate _ col0
  have hfi2 : firstNN ic = some fi := firstNN_interpolate hfi hli
  have hli2 : lastNN ic = some li := lastNN_interpolate hfi hli
  have hicf : getCell ic fi = some fv := getCell_interpolate_of_some hfv
  have hicl : getCell ic li = some lv := getCell_interpolate_of_some hlv
  have h2 : 2 ≤ (dropNulls ic).length := two_le_dropNulls_length hfi2 hli2 hlt
  obtain ⟨avg, hmean⟩ := meanOpt_diff1_interpolate (m := e.interpolation_method) hfi hli hlt
  rw [← hic] at hmean
  have hhead : (dropNulls ic).head? = some fv := by rw [dropNulls_head?_eq hfi2, hicf]
  have hlast : (dropNulls ic).getLast? = some lv := by rw [dropNulls_getLast?_eq hli2, hicl]
  set col2 : Series := (List.range ic.length).map (fun i =>
      if i = 0 ∧ 0 < fi then some (fv - avg * (fi : ℚ))
      else if i = ic.length - 1 ∧ li < ic.length - 1 then
        some (lv + avg * ((max 0 ((ic.length : ℤ) - 1 - (li : ℤ)) : ℤ) : ℚ))
      else getCell ic i) with hcol2
  have hfill : e.fill_regular col0 = some (interpolate .linear col2) := by
    unfold Extrapolator.fill_regular
    simp only [← hic]
    rw [if_neg (by omega), if_neg (by omega), hmean, hhead, hfi2, hlast, hli2]
  have hcol2len : col2.length = ic.length := by
    rw [hcol2, List.length_map, List.length_range]
  have hcell : ∀ i, i < ic.length → getCell col2 i =
      (if i = 0 ∧ 0 < fi then some (fv - avg * (fi : ℚ))
      else if i = ic.length - 1 ∧ li < ic.length - 1 then
        some (lv + avg * ((max 0 ((ic.length : ℤ) - 1 - (li : ℤ)) : ℤ) : ℚ))
      else getCell ic i) := by
    intro i hi
    rw [hcol2]
    exact getCell_map_range _ hi
  -- bounds in terms of ic.length
  have hfiN : fi < ic.length := by omega
  have hliN : li < ic.length := by omega
  -- cell values of col2 at the special positions
  have hc2_fi : getCell col2 fi = some fv := by
    rw [hcell fi hfiN, if_neg, if_neg]
    · exact hicf
    · rintro ⟨h1, h2⟩; omega
    · rintro ⟨h1, h2⟩; omega
  have hc2_li : getCell col2 li = some lv := by
    rw [hcell li hliN, if_neg, if_neg]
    · exact hicl
    · rintro ⟨h1, h2⟩; omega
    · rintro ⟨h1, h2⟩; omega
  have hc2_zero : 0 < fi → getCell col2 0 = some (fv - avg * (fi : ℚ)) := by
    intro h
    rw [hcell 0 (by omega), if_pos ⟨rfl, h⟩]
  have hc2_last : li < ic.length - 1 →
      getCell col2 (ic.length - 1) =
        some (lv + avg * ((max 0 ((ic.length : ℤ) - 1 - (li : ℤ)) : ℤ) : ℚ)) := by
    intro h
    rw [hcell (ic.length - 1) (by omega), if_neg, if_pos ⟨rfl, h⟩]
    rintro ⟨h1, h2⟩
    omega
  have hc2_lead : ∀ i, 0 < i → i < fi → getCell col2 i = none := by
    intro i h1 h2
    rw [hcell i (by omega), if_neg, if_neg]
    · exact interpolate_outside hfi hli (Or.inl h2)
    · rintro ⟨ha, hb⟩; omega
    · rintro ⟨ha, hb⟩; omega
  have hc2_trail : ∀ i, li < i → i < ic.length - 1 → getCell col2 i = none := by
    intro i h1 h2
    rw [hcell i (by omega), if_neg, if_neg]
    · exact interpolate_outside hfi hli (Or.inr h1)
    · rintro ⟨ha, hb⟩; omega
    · rintro ⟨ha, hb⟩; omega
  have hmid : ∀ k, fi ≤ k → k ≤ li → getCell col2 k = getCell ic k := by
    intro k h1 h2
    rw [hcell k (by omega), if_neg, if_neg]
    · rintro ⟨ha, hb⟩; omega
    · rintro ⟨ha, hb⟩; omega
  -- membership facts for col2
  have hmem_of : ∀ i v, getCell col2 i = some v → i ∈ nnIdxs col2 := by
    intro i v hv
    exact mem_nnIdxs.mpr ⟨getCell_some_lt hv, by rw [hv]; rfl⟩
  refine ⟨avg, interpolate .linear col2, hmean, hfill, ?_, ?_, ?_, ?_⟩
  · rw [length_interpolate, hcol2len, hlen_ic]
  · -- leading edge: k ≤ fi
    intro k hk
    have hkN : k < col2.length := by omega
    rw [getCell_interpolate (by omega)]
    rcases Nat.lt_or_ge k fi with hkfi | hkfi
    · rcases Nat.eq_zero_or_pos k with rfl | hk0
      · -- k = 0 < fi
        rw [interpAt_of_some (hc2_zero (by omega))]
        congr 1
        push_cast
        ring
      · -- 0 < k < fi
        have hprev : prevNN col2 k = some 0 := by
          apply prevNN_eq_some (hmem_of 0 _ (hc2_zero (by omega))) hk0
          intro j hj hjk
          by_contra hj0
          have hnull := hc2_lead j (by omega) (by omega)
          have := (mem_nnIdxs.mp hj).2
          rw [hnull] at this
          cases this
        have hnext : nextNN col2 k = some fi := by
          apply nextNN_eq_some (hmem_of fi _ hc2_fi) hkfi
          intro j hj hjk
          by_contra hjfi
          have hnull := hc2_lead j (by omega) (by omega)
          have := (mem_nnIdxs.mp hj).2
          rw [hnull] at this
          cases this
        rw [interpAt_linear_eval (hc2_lead k hk0 hkfi) hprev hnext (hc2_zero (by omega)) hc2_fi]
        have hfine : (fi : ℚ) ≠ 0 := Nat.cast_ne_zero.mpr (by omega)
        congr 1
        push_cast
        field_simp
        ring
    · -- k = fi
      have hkeq : k = fi := by omega
      subst hkeq
      rw [interpAt_of_some hc2_fi]
      congr 1
      ring
  · -- trailing edge: li ≤ k < length
    intro k hk hkN
    rw [getCell_interpolate (by omega)]
    rcases Nat.lt_or_ge li k with hlik | hlik
    · -- li < k
      have hlim1 : li < ic.length - 1 := by omega
      have hmax : (max 0 ((ic.length : ℤ) - 1 - (li : ℤ)) : ℤ) =
          (ic.length : ℤ) - 1 - (li : ℤ) := max_eq_right (by omega)
      rcases Nat.lt_or_ge k (ic.length - 1) with hkn1 | hkn1
      · -- li < k < length - 1
        have hprev : prevNN col2 k = some li := by
          apply prevNN_eq_some (hmem_of li _ hc2_li) hlik
          intro j hj hjk
          by_contra hjli
          have hnull := hc2_trail j (by omega) (by omega)
          have := (mem_nnIdxs.mp hj).2
          rw [hnull] at this
          cases this
        have hnext : nextNN col2 k = some (ic.length - 1) := by
          apply nextNN_eq_some (hmem_of _ _ (hc2_last hlim1)) hkn1
          intro j hj hjk
          by_contra hjn1
          have hjlt : j < ic.length - 1 := by
            have := (mem_nnIdxs.mp hj).1
            rw [hcol2len] at this
            omega
          have hnull := hc2_trail j (by omega) hjlt
          have := (mem_nnIdxs.mp hj).2
          rw [hnull] at this
          cases this
        rw [interpAt_linear_eval (hc2_trail k hlik hkn1) hprev hnext hc2_li (hc2_last hlim1)]
        rw [hmax]
        have hql : (li : ℚ) + 2 ≤ (ic.length : ℚ) := by
          exact_mod_cast Nat.cast_le.mpr (show li + 2 ≤ ic.length by omega)
        have hne : ((ic.length : ℚ) - 1 - (li : ℚ)) ≠ 0 := by linarith
        congr 1
        rw [Nat.cast_sub (by omega : 1 ≤ ic.length)]
        push_cast
        field_simp
        ring
      · -- k = length - 1
        have hkeq : k = ic.length - 1 := by omega
        subst hkeq
        rw [interpAt_of_some (hc2_last hlim1)]
        rw [hmax]
        congr 1
        rw [Nat.cast_sub (by omega : 1 ≤ ic.length)]
        push_cast
        ring
    · -- k = li
      have hkeq : k = li := by omega
      subst hkeq
      rw [interpAt_of_some hc2_li]
      congr 1
      ring
  · -- observed range
    intro k hk1 hk2
    obtain ⟨w, hw⟩ := Option.isSome_iff_exists.mp
      (interpolate_inside_isSome (m := e.interpolation_method) hfi hli hk1 hk2)
    rw [← hic] at hw
    rw [getCell_interpolate (by omega), interpAt_of_some (by rw [hmid k hk1 hk2]; exact hw), hw]

/-- Characterization of `fill_timeseries` when at least one boundary value is
configured and the series has at least two non-null values: each edge is
treated independently — a literal boundary value is written verbatim at
every null position on its side, an unset (`None`) boundary value yields the
linear extrapolation formula — and the observed range is exactly the
interpolated series. -/
lemma fill_timeseries_main {e : Extrapolator} {col0 : Series} {fi li : ℕ} {fv lv : ℚ}
    (hnb : ¬(e.val_before_first_non_null_val = none ∧
      e.val_after_last_non_null_val = none))
    (hfi : firstNN col0 = some fi) (hli : lastNN col0 = some li) (hlt : fi < li)
    (hfv : getCell col0 fi = some fv) (hlv : getCell col0 li = some lv) :
    ∃ avg out,
      meanOpt (diff1 (interpolate e.interpolation_method col0)) = some avg ∧
      e.fill_timeseries col0 = some out ∧
      out.length = col0.length ∧
      (∀ v, e.val_before_first_non_null_val = some v →
        ∀ k, k < fi → getCell out k = some v) ∧
      (e.val_before_first_non_null_val = none →
        ∀ k, k ≤ fi → getCell out k = some (fv - avg * ((fi : ℚ) - (k : ℚ)))) ∧
      (∀ v, e.val_after_last_non_null_val = some v →
        ∀ k, li < k → k < col0.length → getCell out k = some v) ∧
      (e.val_after_last_non_null_val = none →
        ∀ k, li ≤ k → k < col0.length →
          getCell out k = some (lv + avg * ((k : ℚ) - (li : ℚ)))) ∧
      (∀ k, fi ≤ k → k ≤ li →
        getCell out k = getCell (interpolate e.interpolation_method col0) k) := by
  set ic := interpolate e.interpolation_method col0 with hic
  have hfim := firstNN_min hfi
  have hlim := lastNN_max hli
  have hfiLen : fi < col0.length := (mem_nnIdxs.mp hfim.1).1
  have hliLen : li < col0.length := (mem_nnIdxs.mp hlim.1).1
  have hlen_ic : ic.length = col0.length := length_interpolate _ col0
  have hfi2 : firstNN ic = some fi := firstNN_interpolate hfi hli
  have hli2 : lastNN ic = some li := lastNN_interpolate hfi hli
  have hicf : getCell ic fi = some fv := getCell_interpolate_of_some hfv
  have hicl : getCell ic li = some lv := getCell_interpolate_of_some hlv
  have h2 : 2 ≤ (dropNulls ic).length := two_le_dropNulls_length hfi2 hli2 hlt
  obtain ⟨avg, hmean⟩ := meanOpt_diff1_interpolate (m := e.interpolation_method) hfi hli hlt
  rw [← hic] at hmean
  have hhead : (dropNulls ic).head? = some fv := by rw [dropNulls_head?_eq hfi2, hicf]
  have hlast : (dropNulls ic).getLast? = some lv := by rw [dropNulls_getLast?_eq hli2, hicl]
  set step1 : Series := (List.range ic.length).map (fun i =>
      match e.val_before_first_non_null_val with
      | some v => if i < fi ∧ getCell ic i = none then some v else getCell ic i
      | none =>
        if i ≤ fi ∧ getCell ic i = none then
          some ((fv - avg * (fi : ℚ)) + avg * (i : ℚ))
        else getCell ic i) with hstep1
  set step2 : Series := (List.range ic.length).map (fun i =>
      match e.val_after_last_non_null_val with
      | some v => if li ≤ i ∧ getCell step1 i = none then some v else getCell step1 i
      | none =>
        if li ≤ i ∧ getCell step1 i = none then
          some ((lv + avg * ((max 0 ((ic.length : ℤ) - 1 - (li : ℤ)) : ℤ) : ℚ)) -
            avg * ((ic.length : ℚ) - 1 - (i : ℚ)))
        else getCell step1 i) with hstep2
  have hfill : e.fill_timeseries col0 = some step2 := by
    unfold Extrapolator.fill_timeseries
    simp only [← hic]
    rw [if_neg hnb, if_neg (by omega), if_neg (by omega), hmean, hhead, hfi2, hlast, hli2]
  have hs1len : step1.length = ic.length := by
    rw [hstep1, List.length_map, List.length_range]
  have hs2len : step2.length = ic.length := by
    rw [hstep2, List.length_map, List.length_range]
  have hs1cell : ∀ i, i < ic.length → getCell step1 i =
      (match e.val_before_first_non_null_val with
      | some v => if i < fi ∧ getCell ic i = none then some v else getCell ic i
      | none =>
        if i ≤ fi ∧ getCell ic i = none then
          some ((fv - avg * (fi : ℚ)) + avg * (i : ℚ))
        else getCell ic i) := by
    intro i hi
    rw [hstep1]
    exact getCell_map_range _ hi
  have hs2cell : ∀ i, i < ic.length → getCell step2 i =
      (match e.val_after_last_non_null_val with
      | some v => if li ≤ i ∧ getCell step1 i = none then some v else getCell step1 i
      | none =>
        if li ≤ i ∧ getCell step1 i = none then
          some ((lv + avg * ((max 0 ((ic.length : ℤ) - 1 - (li : ℤ)) : ℤ) : ℚ)) -
            avg * ((ic.length : ℚ) - 1 - (i : ℚ)))
        else getCell step1 i) := by
    intro i hi
    rw [hstep2]
    exact getCell_map_range _ hi
  -- per-configuration forms of the step1/step2 cells
  have hs1s : ∀ v, e.val_before_first_non_null_val = some v → ∀ i, i < ic.length →
      getCell step1 i =
        if i < fi ∧ getCell ic i = none then some v else getCell ic i := by
    intro v hv i hi
    rw [hs1cell i hi, hv]
  have hs1n : e.val_before_first_non_null_val = none → ∀ i, i < ic.length →
      getCell step1 i =
        if i ≤ fi ∧ getCell ic i = none then
          some ((fv - avg * (fi : ℚ)) + avg * (i : ℚ))
        else getCell ic i := by
    intro hv i hi
    rw [hs1cell i hi, hv]
  have hs2s : ∀ v, e.val_after_last_non_null_val = some v → ∀ i, i < ic.length →
      getCell step2 i =
        if li ≤ i ∧ getCell step1 i = none then some v else getCell step1 i := by
    intro v hv i hi
    rw [hs2cell i hi, hv]
  have hs2n : e.val_after_last_non_null_val = none → ∀ i, i < ic.length →
      getCell step2 i =
        if li ≤ i ∧ getCell step1 i = none then
          some ((lv + avg * ((max 0 ((ic.length : ℤ) - 1 - (li : ℤ)) : ℤ) : ℚ)) -
            avg * ((ic.length : ℚ) - 1 - (i : ℚ)))
        else getCell step1 i := by
    intro hv i hi
    rw [hs2cell i hi, hv]
  -- step1 values
  have hs1_mid : ∀ k, fi ≤ k → k ≤ li → getCell step1 k = getCell ic k := by
    intro k h1 h3
    cases hbe : e.val_before_first_non_null_val with
    | some v =>
      rw [hs1s v hbe k (by omega), if_neg]
      rintro ⟨ha, _⟩
      omega
    | none =>
      rw [hs1n hbe k (by omega), if_neg]
      rintro ⟨ha, hb⟩
      have : k = fi := by omega
      subst this
      rw [hicf] at hb
      cases hb
  have hs1_before_some : ∀ v, e.val_before_first_non_null_val = some v →
      ∀ k, k < fi → getCell step1 k = some v := by
    intro v hv k hk
    rw [hs1s v hv k (by omega),
      if_pos ⟨hk, interpolate_outside hfi hli (Or.inl hk)⟩]
  have hs1_before_none : e.val_before_first_non_null_val = none →
      ∀ k, k < fi → getCell step1 k = some ((fv - avg * (fi : ℚ)) + avg * (k : ℚ)) := by
    intro hv k hk
    rw [hs1n hv k (by omega),
      if_pos ⟨Nat.le_of_lt hk, interpolate_outside hfi hli (Or.inl hk)⟩]
  have hs1_trail : ∀ k, li < k → k < ic.length → getCell step1 k = none := by
    intro k h1 h3
    have hout : getCell ic k = none := interpolate_outside hfi hli (Or.inr h1)
    cases hbe : e.val_before_first_non_null_val with
    | some v =>
      rw [hs1s v hbe k h3, if_neg]
      · exact hout
      · rintro ⟨ha, _⟩; omega
    | none =>
      rw [hs1n hbe k h3, if_neg]
      · exact hout
      · rintro ⟨ha, _⟩; omega
  -- step2 values
  have hs2_le_li : ∀ k, k ≤ li → getCell step2 k = getCell step1 k := by
    intro k hk
    have hnc : ¬(li ≤ k ∧ getCell step1 k = none) := by
      rintro ⟨ha, hb⟩
      have hkli : k = li := by omega
      subst hkli
      rw [hs1_mid k (by omega) (by omega), hicl] at hb
      cases hb
    cases hbe : e.val_after_last_non_null_val with
    | some v => rw [hs2s v hbe k (by omega), if_neg hnc]
    | none => rw [hs2n hbe k (by omega), if_neg hnc]
  have hs2_after_some : ∀ v, e.val_after_last_non_null_val = some v →
      ∀ k, li < k → k < ic.length → getCell step2 k = some v := by
    intro v hv k h1 h3
    rw [hs2s v hv k h3, if_pos ⟨Nat.le_of_lt h1, hs1_trail k h1 h3⟩]
  have hs2_after_none : e.val_after_last_non_null_val = none →
      ∀ k, li < k → k < ic.length → getCell step2 k =
        some ((lv + avg * ((max 0 ((ic.length : ℤ) - 1 - (li : ℤ)) : ℤ) : ℚ)) -
          avg * ((ic.length : ℚ) - 1 - (k : ℚ))) := by
    intro hv k h1 h3
    rw [hs2n hv k h3, if_pos ⟨Nat.le_of_lt h1, hs1_trail k h1 h3⟩]
  refine ⟨avg, step2, hmean, hfill, by rw [hs2len, hlen_ic], ?_, ?_, ?_, ?_, ?_⟩
  · -- literal before-edge
    intro v hv k hk
    rw [hs2_le_li k (by omega), hs1_before_some v hv k hk]
  · -- unset before-edge: linear extrapolation
    intro hv k hk
    rw [hs2_le_li k (by omega)]
    rcases Nat.lt_or_ge k fi with hklt | hkge
    · rw [hs1_before_none hv k hklt]
      congr 1
      ring
    · have hkfi : k = fi := by omega
      subst hkfi
      rw [hs1_mid k le_rfl (by omega), hicf]
      congr 1
      ring
  · -- literal after-edge
    intro v hv k h1 h3
    exact hs2_after_some v hv k h1 (by omega)
  · -- unset after-edge: linear extrapolation
    intro hv k h1 h3
    rcases Nat.lt_or_ge li k with hklt | hkge
    · rw [hs2_after_none hv k hklt (by omega)]
      have hmax : (max 0 ((ic.length : ℤ) - 1 - (li : ℤ)) : ℤ) =
          (ic.length : ℤ) - 1 - (li : ℤ) := max_eq_right (by omega)
      rw [hmax]
      congr 1
      push_cast
      ring
    · have hkli : k = li := by omega
      subst hkli
      rw [hs2_le_li k le_rfl, hs1_mid k (by omega) le_rfl, hicl]
      congr 1
      ring
  · -- observed range
    intro k h1 h3
    rw [hs2_le_li k h3, hs1_mid k h1 h3]

/-! ### Degenerate cases and preservation of observed values -/

lemma getCell_map_fill {l : Series} {x : ℚ} {i : ℕ} {v : ℚ} (h : getCell l i = some v) :
    getCell (l.map fun c => some (c.getD x)) i = some v := by
  have hl : l[i]? = some (some v) := by
    rw [getCell, List.getD_eq_getElem?_getD] at h
    cases hq : l[i]? with
    | none => rw [hq] at h; cases h
    | some c =>
      rw [hq] at h
      simp only [Option.getD_some] at h
      rw [h]
  rw [getCell, List.getD_eq_getElem?_getD, List.getElem?_map, hl]
  rfl

lemma fill_timeseries_both_none {e : Extrapolator} {col : Series}
    (h1 : e.val_before_first_non_null_val = none)
    (h2 : e.val_after_last_non_null_val = none) :
    e.fill_timeseries col = e.fill_regular col := by
  unfold Extrapolator.fill_timeseries
  rw [if_pos ⟨h1, h2⟩]

lemma nnIdxs_interpolate_single {m : InterpMethod} {l : Series} {fi : ℕ}
    (hfi : firstNN l = some fi) (hli : lastNN l = some fi) :
    nnIdxs (interpolate m l) = [fi] := by
  have hmem := mem_nnIdxs_interpolate (m := m) hfi hli
  have h1 : fi ∈ nnIdxs (interpolate m l) := (hmem fi).mpr ⟨le_rfl, le_rfl⟩
  cases hn : nnIdxs (interpolate m l) with
  | nil => rw [hn] at h1; cases h1
  | cons b t =>
    have hb : b = fi := by
      have := (hmem b).mp (by rw [hn]; exact List.mem_cons_self b t)
      omega
    subst hb
    cases t with
    | nil => rfl
    | cons c t2 =>
      have hc : c = b := by
        have := (hmem c).mp (by rw [hn]; simp)
        omega
      have hp := nnIdxs_pairwise (interpolate m l)
      rw [hn] at hp
      have := (List.pairwise_cons.mp hp).1 c (by simp)
      omega

lemma fill_regular_single {e : Extrapolator} {col0 : Series} {fi : ℕ}
    (hfi : firstNN col0 = some fi) (hli : lastNN col0 = some fi) :
    ∃ out, e.fill_regular col0 = some out ∧
      ∀ i v, getCell (interpolate e.interpolation_method col0) i = some v →
        getCell out i = some v := by
  set ic := interpolate e.interpolation_method col0 with hic
  have hsingle : nnIdxs ic = [fi] := nnIdxs_interpolate_single hfi hli
  have hlen1 : (dropNulls ic).length = 1 := by
    rw [length_dropNulls_eq, hsingle]
    rfl
  have hmed : (medianOpt ic).isSome = true := by
    simp only [medianOpt]
    rw [List.length_mergeSort, hlen1]
    norm_num
  obtain ⟨x, hx⟩ := Option.isSome_iff_exists.mp hmed
  have hred : e.fill_regular col0 = fillNullValue (medianOpt ic) ic := by
    unfold Extrapolator.fill_regular
    simp only [← hic]
    rw [if_neg (by omega), if_pos hlen1]
  rw [hred, hx]
  exact ⟨_, rfl, fun i v hv => getCell_map_fill hv⟩

lemma fill_timeseries_single {e : Extrapolator} {col0 : Series} {fi : ℕ}
    (hnb : ¬(e.val_before_first_non_null_val = none ∧
      e.val_after_last_non_null_val = none))
    (hfi : firstNN col0 = some fi) (hli : lastNN col0 = some fi) :
    ∃ out, e.fill_timeseries col0 = some out ∧
      ∀ i v, getCell (interpolate e.interpolation_method col0) i = some v →
        getCell out i = some v := by
  set ic := interpolate e.interpolation_method col0 with hic
  have hsingle : nnIdxs ic = [fi] := nnIdxs_interpolate_single hfi hli
  have hlen1 : (dropNulls ic).length = 1 := by
    rw [length_dropNulls_eq, hsingle]
    rfl
  have hmeanex : ∃ x, meanOpt ic = some x := by
    refine ⟨_, meanOpt_isSome_of_ne_nil ?_⟩
    intro hnil
    rw [hnil] at hlen1
    cases hlen1
  obtain ⟨x, hx⟩ := hmeanex
  have hred : e.fill_timeseries col0 = fillNullValue (meanOpt ic) ic := by
    unfold Extrapolator.fill_timeseries
    simp only [← hic]
    rw [if_neg hnb, if_neg (by omega), if_pos hlen1]
  rw [hred, hx]
  exact ⟨_, rfl, fun i v hv => getCell_map_fill hv⟩

/-! ### Claim theorems for the Extrapolator -/

/-- C2: `fill_regular` interpolates interior gaps, then unconditionally
extrapolates both edges linearly using the null-ignoring mean of the
successive differences of the interpolated series as slope; on the series
`[None, None, 5, 6, 7, None, 9, None]` it returns exactly
`[3, 4, 5, 6, 7, 8, 9, 10]`. -/
theorem C2_fill_regular_linear_edges :
    (∀ (e : Extrapolator) (col : Series) (fi li : ℕ) (fv lv : ℚ),
      firstNN col = some fi → lastNN col = some li → fi < li →
      getCell col fi = some fv → getCell col li = some lv →
      ∃ avg out,
        meanOpt (diff1 (interpolate e.interpolation_method col)) = some avg ∧
        e.fill_regular col = some out ∧
        out.length = col.length ∧
        (∀ k, k ≤ fi → getCell out k = some (fv - avg * ((fi : ℚ) - (k : ℚ)))) ∧
        (∀ k, li ≤ k → k < col.length →
          getCell out k = some (lv + avg * ((k : ℚ) - (li : ℚ)))) ∧
        (∀ k, fi ≤ k → k ≤ li →
          getCell out k = getCell (interpolate e.interpolation_method col) k)) ∧
    Extrapolator.fill_regular {} exSeries =
      some [some 3, some 4, some 5, some 6, some 7, some 8, some 9, some 10] := by
  constructor
  · intro e col fi li fv lv h1 h2 h3 h4 h5
    exact fill_regular_main h1 h2 h3 h4 h5
  · with_unfolding_all decide

/-- Witness for C2: the universally quantified part applied to the spec's
example series with its first/last non-null indices 2 and 6. -/
theorem C2_fill_regular_linear_edges_witness :
    ∃ out, Extrapolator.fill_regular {} exSeries = some out ∧
      out.length = exSeries.length := by
  obtain ⟨avg, out, _, hfill, hlen, _⟩ :=
    C2_fill_regular_linear_edges.1 {} exSeries 2 6 5 9 (by decide) (by decide)
      (by decide) (by decide) (by decide)
  exact ⟨out, hfill, hlen⟩

/-- C1: `fill_timeseries` treats each edge independently.  If both boundary
values are `None` it equals `fill_regular`.  A literal boundary value is
written verbatim at every null position on its side of the observed range.
A `None` boundary value makes that edge agree with `fill_regular`'s linear
extrapolation.  On `[None, None, 5, 6, 7, None, 9, None]` with
`val_before_first_non_null_val = 0` the result is exactly
`[0, 0, 5, 6, 7, 8, 9, 10]`. -/
theorem C1_fill_timeseries_edges :
    (∀ (e : Extrapolator) (col : Series),
      e.val_before_first_non_null_val = none →
      e.val_after_last_non_null_val = none →
      e.fill_timeseries col = e.fill_regular col) ∧
    (∀ (e : Extrapolator) (col : Series) (fi li : ℕ) (fv lv v : ℚ),
      e.val_before_first_non_null_val = some v →
      firstNN col = some fi → lastNN col = some li → fi < li →
      getCell col fi = some fv → getCell col li = some lv →
      ∃ out, e.fill_timeseries col = some out ∧
        ∀ k, k < fi → getCell out k = some v) ∧
    (∀ (e : Extrapolator) (col : Series) (fi li : ℕ) (fv lv v : ℚ),
      e.val_after_last_non_null_val = some v →
      firstNN col = some fi → lastNN col = some li → fi < li →
      getCell col fi = some fv → getCell col li = some lv →
      ∃ out, e.fill_timeseries col = some out ∧
        ∀ k, li < k → k < col.length → getCell out k = some v) ∧
    (∀ (e : Extrapolator) (col : Series) (fi li : ℕ) (fv lv w : ℚ),
      e.val_before_first_non_null_val = none →
      e.val_after_last_non_null_val = some w →
      firstNN col = some fi → lastNN col = some li → fi < li →
      getCell col fi = some fv → getCell col li = some lv →
      ∃ out outR, e.fill_timeseries col = some out ∧ e.fill_regular col = some outR ∧
        ∀ k, k ≤ fi → getCell out k = getCell outR k) ∧
    (∀ (e : Extrapolator) (col : Series) (fi li : ℕ) (fv lv v : ℚ),
      e.val_before_first_non_null_val = some v →
      e.val_after_last_non_null_val = none →
      firstNN col = some fi → lastNN col = some li → fi < li →
      getCell col fi = some fv → getCell col li = some lv →
      ∃ out outR, e.fill_timeseries col = some out ∧ e.fill_regular col = some outR ∧
        ∀ k, li ≤ k → k < col.length → getCell out k = getCell outR k) ∧
    Extrapolator.fill_timeseries { val_before_first_non_null_val := some 0 } exSeries =
      some [some 0, some 0, some 5, some 6, some 7, some 8, some 9, some 10] := by
  refine ⟨?_, ?_, ?_, ?_, ?_, ?_⟩
  · intro e col h1 h2
    exact fill_timeseries_both_none h1 h2
  · intro e col fi li fv lv v hv h1 h2 h3 h4 h5
    have hnb : ¬(e.val_before_first_non_null_val = none ∧
        e.val_after_last_non_null_val = none) := by
      rintro ⟨ha, _⟩
      rw [hv] at ha
      cases ha
    obtain ⟨avg, out, _, hfill, _, hbefore, _, _, _, _⟩ :=
      fill_timeseries_main hnb h1 h2 h3 h4 h5
    exact ⟨out, hfill, hbefore v hv⟩
  · intro e col fi li fv lv v hv h1 h2 h3 h4 h5
    have hnb : ¬(e.val_before_first_non_null_val = none ∧
        e.val_after_last_non_null_val = none) := by
      rintro ⟨_, ha⟩
      rw [hv] at ha
      cases ha
    obtain ⟨avg, out, _, hfill, _, _, _, hafter, _, _⟩ :=
      fill_timeseries_main hnb h1 h2 h3 h4 h5
    exact ⟨out, hfill, hafter v hv⟩
  · intro e col fi li fv lv w hb ha h1 h2 h3 h4 h5
    have hnb : ¬(e.val_before_first_non_null_val = none ∧
        e.val_after_last_non_null_val = none) := by
      rintro ⟨_, hx⟩
      rw [ha] at hx
      cases hx
    obtain ⟨avg, out, hm, hfill, _, _, hbn, _, _, _⟩ :=
      fill_timeseries_main hnb h1 h2 h3 h4 h5
    obtain ⟨avg2, outR, hm2, hfill2, _, hlead, _, _⟩ :=
      fill_regular_main (e := e) h1 h2 h3 h4 h5
    have havg : avg2 = avg := by
      rw [hm] at hm2
      exact ((Option.some.injEq _ _).mp hm2).symm
    refine ⟨out, outR, hfill, hfill2, ?_⟩
    intro k hk
    rw [hbn hb k hk, hlead k hk, havg]
  · intro e col fi li fv lv v hb ha h1 h2 h3 h4 h5
    have hnb : ¬(e.val_before_first_non_null_val = none ∧
        e.val_after_last_non_null_val = none) := by
      rintro ⟨hx, _⟩
      rw [hb] at hx
      cases hx
    obtain ⟨avg, out, hm, hfill, _, _, _, _, han, _⟩ :=
      fill_timeseries_main hnb h1 h2 h3 h4 h5
    obtain ⟨avg2, outR, hm2, hfill2, _, _, htrail, _⟩ :=
      fill_regular_main (e := e) h1 h2 h3 h4 h5
    have havg : avg2 = avg := by
      rw [hm] at hm2
      exact ((Option.some.injEq _ _).mp hm2).symm
    refine ⟨out, outR, hfill, hfill2, ?_⟩
    intro k hk hkn
    rw [han ha k hk hkn, htrail k hk hkn, havg]
  · with_unfolding_all decide

/-- Witness for C1: the literal-before part applied to the spec's example
series with boundary literal 0, plus the both-`None` identity at the same
series. -/
theorem C1_fill_timeseries_edges_witness :
    (∃ out,
      Extrapolator.fill_timeseries { val_before_first_non_null_val := some 0 } exSeries =
        some out ∧ ∀ k, k < 2 → getCell out k = some 0) ∧
    Extrapolator.fill_timeseries {} exSeries = Extrapolator.fill_regular {} exSeries := by
  constructor
  · exact C1_fill_timeseries_edges.2.1 { val_before_first_non_null_val := some 0 }
      exSeries 2 6 5 9 0 rfl (by decide) (by decide) (by decide) (by decide) (by decide)
  · exact C1_fill_timeseries_edges.1 {} exSeries rfl rfl

/-- C9 (implicit): both fill operations preserve every observed (non-null)
input value — each fill branch writes only to null positions, so the output
at a non-null input index equals the input value. -/
theorem C9_observed_values_preserved (e : Extrapolator) (col : Series) (i : ℕ) (v : ℚ)
    (hv : getCell col i = some v) :
    (∃ out, e.fill_regular col = some out ∧ getCell out i = some v) ∧
    (∃ out, e.fill_timeseries col = some out ∧ getCell out i = some v) := by
  have himem : i ∈ nnIdxs col := mem_nnIdxs.mpr ⟨getCell_some_lt hv, by rw [hv]; rfl⟩
  have hne : nnIdxs col ≠ [] := List.ne_nil_of_mem himem
  obtain ⟨fi, hfi⟩ := Option.isSome_iff_exists.mp (List.head?_isSome.mpr hne)
  obtain ⟨li, hli⟩ := Option.isSome_iff_exists.mp (List.getLast?_isSome.mpr hne)
  have hfi' : firstNN col = some fi := hfi
  have hli' : lastNN col = some li := hli
  have hlow : fi ≤ i := (firstNN_min hfi').2 i himem
  have hhigh : i ≤ li := (lastNN_max hli').2 i himem
  have hicv : getCell (interpolate e.interpolation_method col) i = some v :=
    getCell_interpolate_of_some hv
  rcases eq_or_lt_of_le (le_trans hlow hhigh) with heq | hlt
  · -- exactly one non-null index
    subst heq
    have hii : i = fi := by omega
    subst hii
    constructor
    · obtain ⟨out, h1, h2⟩ := fill_regular_single (e := e) hfi' hli'
      exact ⟨out, h1, h2 i v hicv⟩
    · by_cases hb : e.val_before_first_non_null_val = none ∧
        e.val_after_last_non_null_val = none
      · rw [fill_timeseries_both_none hb.1 hb.2]
        obtain ⟨out, h1, h2⟩ := fill_regular_single (e := e) hfi' hli'
        exact ⟨out, h1, h2 i v hicv⟩
      · obtain ⟨out, h1, h2⟩ := fill_timeseries_single hb hfi' hli'
        exact ⟨out, h1, h2 i v hicv⟩
  · -- at least two non-null indices
    obtain ⟨fv, hfv⟩ := Option.isSome_iff_exists.mp (mem_nnIdxs.mp (firstNN_min hfi').1).2
    obtain ⟨lv, hlv⟩ := Option.isSome_iff_exists.mp (mem_nnIdxs.mp (lastNN_max hli').1).2
    constructor
    · obtain ⟨avg, out, _, hfill, _, _, _, hmid⟩ :=
        fill_regular_main (e := e) hfi' hli' hlt hfv hlv
      refine ⟨out, hfill, ?_⟩
      rw [hmid i hlow hhigh]
      exact hicv
    · by_cases hb : e.val_before_first_non_null_val = none ∧
        e.val_after_last_non_null_val = none
      · rw [fill_timeseries_both_none hb.1 hb.2]
        obtain ⟨avg, out, _, hfill, _, _, _, hmid⟩ :=
          fill_regular_main (e := e) hfi' hli' hlt hfv hlv
        refine ⟨out, hfill, ?_⟩
        rw [hmid i hlow hhigh]
        exact hicv
      · obtain ⟨avg, out, _, hfill, _, _, _, _, _, hmid⟩ :=
          fill_timeseries_main hb hfi' hli' hlt hfv hlv
        refine ⟨out, hfill, ?_⟩
        rw [hmid i hlow hhigh]
        exact hicv

/-- Witness for C9: the observed value 5 at index 2 of the example series is
preserved by both fills. -/
theorem C9_observed_values_preserved_witness :
    (∃ out, Extrapolator.fill_regular {} exSeries = some out ∧
      getCell out 2 = some 5) ∧
    (∃ out, Extrapolator.fill_timeseries {} exSeries = some out ∧
      getCell out 2 = some 5) :=
  C9_observed_values_preserved {} exSeries 2 5 (by decide)

/-! ## Renamer (helpers/Renamer.py)

Strings are modelled at the code-point level; `Char.toLower` agrees with
CPython's `str.lower` on ASCII, which covers every character the claims and
the substitution table involve. -/

/-- The default substitution table of `Renamer.__init__` (Renamer.py lines
11-44).  The apostrophe, backquote and brace keys are written via
`Char.ofNat` (39, 96, 123, 125). -/
def default_rename_table : List (Char × String) :=
  [('!', ""), ('"', ""), ('#', "number"), ('$', "dollar"), ('%', "percent"),
   ('&', "and"), (' ', "_"), (Char.ofNat 39, ""), ('(', ""), (')', ""),
   ('*', "star"), ('+', "plus"), (',', "-"), ('-', "_"), ('.', "_"),
   ('/', "_"), (':', "_"), (';', "_"), ('<', "lessthan"), ('=', "equals"),
   ('>', "greaterthan"), ('?', "question"), ('@', "at"), ('[', "_"),
   ('\\', "_"), (']', "_"), ('^', "caret"), (Char.ofNat 96, "_"),
   (Char.ofNat 123, "_"), ('|', "pipe"), (Char.ofNat 125, "_"), ('~', "tilde")]

/-- Python `str.translate(str.maketrans(table))`: one pass over the string;
a character that is a key is replaced by its (possibly empty, possibly
multi-character) value, other characters pass through. -/
def pyTranslate (table : List (Char × String)) (s : List Char) : List Char :=
  (s.map fun c =>
    match table.lookup c with
    | some r => r.toList
    | none => [c]).flatten

/-- Python `str.strip("_")`: remove leading and trailing underscores. -/
def stripUnderscores (s : List Char) : List Char :=
  ((s.dropWhile fun c => c = '_').reverse.dropWhile fun c => c = '_').reverse

/-- Python `str.lower()` (ASCII model). -/
def pyLower (s : List Char) : List Char := s.map Char.toLower

/-- `Renamer.rename_inner_` (Renamer.py lines 66-76).  `None` and `""` are
both falsy in `if not name`.  The `lru_cache` decorator on the source
method only memoizes this pure function and has no semantic effect. -/
def rename_inner (name : Option String) : String :=
  match name with
  | none => "unnamed"
  | some s =>
    if s = "" then "unnamed"
    else
      let t := String.mk (pyLower (stripUnderscores
        (pyTranslate default_rename_table s.toList)))
      if t = "" then "unnamed" else t

/-- Update one key of the counts dict. -/
def bumpCount (counts : List (String × ℕ)) (k : String) (v : ℕ) :
    List (String × ℕ) :=
  counts.map fun p => if p.1 = k then (p.1, v) else p

/-- `Renamer.rename` (Renamer.py lines 48-64): state-passing embedding of
the method; the state is the instance's `counts` dict (an association list
whose keys are unique by construction).  A first occurrence records count 1
and returns the sanitized name; a repeat occurrence bumps the count to `k+1`
and returns `name_{k+1}` — without reserving the suffixed result. -/
def Renamer.rename (counts : List (String × ℕ)) (name : Option String) :
    String × List (String × ℕ) :=
  let n := rename_inner name
  match counts.lookup n with
  | none => (n, (n, 1) :: counts)
  | some k => (n ++ "_" ++ toString (k + 1), bumpCount counts n (k + 1))

/-- The character set `[a-z0-9_]` asserted by the claim. -/
def allowedChar (c : Char) : Bool :=
  c = '_' || ('a' ≤ c && c ≤ 'z') || ('0' ≤ c && c ≤ '9')

/-- The input characters for which sanitization provably lands in
`[a-z0-9_]`: ASCII letters, digits, underscore and every substitution-table
key except `','` (whose replacement is `"-"`). -/
def safeChars : List Char :=
  ("abcdefghijklmnopqrstuvwxyzABCDEFGHIJKLMNOPQRSTUVWXYZ0123456789_" ++
   " !\"#$%&()*+-./:;<=>?@[\\]^\x60\x7b|\x7d~\x27").toList

lemma digits_allowed (fuel n : ℕ) (acc : List Char)
    (hacc : ∀ c ∈ acc, allowedChar c = true) :
    ∀ c ∈ Nat.toDigitsCore 10 fuel n acc, allowedChar c = true := by
  induction fuel generalizing n acc with
  | zero => simpa [Nat.toDigitsCore] using hacc
  | succ f ih =>
    intro c hc
    rw [Nat.toDigitsCore] at hc
    have hd : allowedChar (Nat.digitChar (n % 10)) = true := by
      have h10 : n % 10 < 10 := Nat.mod_lt _ (by norm_num)
      interval_cases h : n % 10 <;> decide
    have hacc2 : ∀ x ∈ Nat.digitChar (n % 10) :: acc, allowedChar x = true := by
      intro x hx
      rcases List.mem_cons.mp hx with h | h
      · rw [h]; exact hd
      · exact hacc x h
    by_cases hz : n / 10 = 0
    · rw [if_pos hz] at hc
      exact hacc2 c hc
    · rw [if_neg hz] at hc
      exact ih (n / 10) _ hacc2 c hc

lemma toString_nat_allowed (n : ℕ) :
    ∀ c ∈ (toString n).toList, allowedChar c = true := by
  have heq : (toString n).toList = Nat.toDigitsCore 10 (n + 1) n [] := rfl
  rw [heq]
  exact digits_allowed (n + 1) n [] (by intro c hc; cases hc)

lemma safe_translate_allowed :
    ∀ c ∈ safeChars,
      ((match default_rename_table.lookup c with
        | some r => r.toList
        | none => [c]).map Char.toLower).all allowedChar = true := by
  decide

lemma pyTranslate_chars {s : List Char} (hs : ∀ c ∈ s, c ∈ safeChars) :
    ∀ c ∈ pyTranslate default_rename_table s, allowedChar c.toLower = true := by
  intro c hc
  rw [pyTranslate, List.mem_flatten] at hc
  obtain ⟨piece, hpiece, hcp⟩ := hc
  obtain ⟨c0, hc0, hc0p⟩ := List.mem_map.mp hpiece
  have hall := safe_translate_allowed c0 (hs c0 hc0)
  have hcp2 : c ∈ (match default_rename_table.lookup c0 with
      | some r => r.toList
      | none => [c0]) := by
    rw [hc0p]
    exact hcp
  exact List.all_eq_true.mp hall _ (List.mem_map_of_mem _ hcp2)

lemma stripUnderscores_subset (s : List Char) :
    ∀ c ∈ stripUnderscores s, c ∈ s := by
  intro c hc
  rw [stripUnderscores, List.mem_reverse] at hc
  have h1 := List.dropWhile_sublist (l := (s.dropWhile fun c => c = '_').reverse)
    (p := fun c => c = '_')
  have h2 := h1.subset hc
  rw [List.mem_reverse] at h2
  exact (List.dropWhile_sublist _).subset h2

lemma unnamed_allowed : ∀ c ∈ "unnamed".toList, allowedChar c = true := by decide

lemma rename_inner_allowed (name : Option String)
    (hs : ∀ s, name = some s → ∀ c ∈ s.toList, c ∈ safeChars) :
    ∀ c ∈ (rename_inner name).toList, allowedChar c = true := by
  cases name with
  | none =>
    intro c hc
    exact unnamed_allowed c hc
  | some s =>
    rw [rename_inner]
    by_cases he : s = ""
    · rw [if_pos he]
      intro c hc
      exact unnamed_allowed c hc
    · rw [if_neg he]
      set t := String.mk (pyLower (stripUnderscores
        (pyTranslate default_rename_table s.toList))) with ht
      by_cases he2 : t = ""
      · rw [if_pos he2]
        intro c hc
        exact unnamed_allowed c hc
      · rw [if_neg he2]
        intro c hc
        have hct : c ∈ pyLower (stripUnderscores
            (pyTranslate default_rename_table s.toList)) := hc
        rw [pyLower] at hct
        obtain ⟨c0, hc0, hc0l⟩ := List.mem_map.mp hct
        have hc0t := stripUnderscores_subset _ c0 hc0
        rw [← hc0l]
        exact pyTranslate_chars (hs s rfl) c0 hc0t

/-- C8 counterexample: on the fresh renamer, `rename(",")` returns `"-"`,
which contains a character outside `[a-z0-9_]` (the substitution table maps
`','` to `"-"`, and `"-"` survives strip and lower). -/
theorem C8_counterexample_comma :
    (Renamer.rename [] (some ",")).1 = "-" ∧
    ((Renamer.rename [] (some ",")).1.toList.all allowedChar) = false := by
  constructor <;> decide

/-- C8 as amended: for inputs whose characters are ASCII letters, digits,
underscores or substitution-table keys other than `','` (and for `None`),
the returned string contains only characters in `[a-z0-9_]`; on a fresh
renamer, `None` and `""` both yield the sentinel `"unnamed"`. -/
theorem C8_rename_charset :
    (∀ (counts : List (String × ℕ)) (name : Option String),
      (∀ s, name = some s → ∀ c ∈ s.toList, c ∈ safeChars) →
      ((Renamer.rename counts name).1.toList.all allowedChar) = true) ∧
    Renamer.rename [] none = ("unnamed", [("unnamed", 1)]) ∧
    Renamer.rename [] (some "") = ("unnamed", [("unnamed", 1)]) := by
  refine ⟨?_, by decide, by decide⟩
  intro counts name hsafe
  have hbase := rename_inner_allowed name hsafe
  rw [Renamer.rename]
  cases hl : counts.lookup (rename_inner name) with
  | none =>
    rw [List.all_eq_true]
    exact hbase
  | some k =>
    rw [List.all_eq_true]
    intro c hc
    have hsplit : (rename_inner name ++ "_" ++ toString (k + 1)).toList =
        (rename_inner name).toList ++ "_".toList ++ (toString (k + 1)).toList := rfl
    rw [hsplit] at hc
    rcases List.mem_append.mp hc with h1 | h1
    · rcases List.mem_append.mp h1 with h2 | h2
      · exact hbase c h2
      · exact (by decide : ∀ x ∈ "_".toList, allowedChar x = true) c h2
    · exact toString_nat_allowed (k + 1) c h1

/-- Witness for C8 (amended): the safe input `"A b"` sanitizes to a string
over `[a-z0-9_]`, and the fresh-state sentinel facts hold. -/
theorem C8_rename_charset_witness :
    ((Renamer.rename [] (some "A b")).1.toList.all allowedChar) = true ∧
    Renamer.rename [] none = ("unnamed", [("unnamed", 1)]) :=
  ⟨C8_rename_charset.1 [] (some "A b")
    (by intro s hs; cases hs; decide),
   C8_rename_charset.2.1⟩

/-- C10 (implicit): `rename` does not guarantee pairwise-distinct outputs —
the counter is keyed on the sanitized base name only and suffixed results
are never reserved: `rename("a") = "a"`, then `rename("a") = "a_2"`, and a
later `rename("a_2")` also returns `"a_2"`. -/
theorem C10_rename_collision_not_injective :
    (Renamer.rename [] (some "a")).1 = "a" ∧
    (Renamer.rename (Renamer.rename [] (some "a")).2 (some "a")).1 = "a_2" ∧
    (Renamer.rename
      (Renamer.rename (Renamer.rename [] (some "a")).2 (some "a")).2
      (some "a_2")).1 = "a_2" := by
  refine ⟨?_, ?_, ?_⟩ <;> decide

/-! ## Cleaner (etl/cleaners/Cleaner.py) -/

/-- A polars frame: a header of column names and row-major nullable cells;
row cells align with the header by position. -/
structure Frame where
  header : List String
  rows : List (List (Option ℚ))
deriving DecidableEq

/-- The `cols` argument of the Cleaner helpers: a single name (`str`), a
list of names, or `None`. -/
inductive ColsArg
  | one (s : String)
  | many (l : List String)
  | null

/-- `Cleaner.cols_from_provided_cols_` (Cleaner.py lines 15-43): a string
keeps the matching header entries, a list keeps the requested names present
in the header (in requested order), `None` gives `[]`. -/
def cols_from_provided_cols (fr : Frame) (cols : ColsArg) : List String :=
  match cols with
  | .one s => fr.header.filter fun c => c = s
  | .many l => l.filter fun c => fr.header.contains c
  | .null => []

/-- `pl.sum_horizontal(pl_cols.is_not_null())` for one row, with `pl_cols =
pl.exclude(ign)` (and `pl.all()` when `ign` is empty, which coincides):
the count of non-null cells in the non-ignored columns. -/
def rowNonNullCount (header ign : List String) (r : List (Option ℚ)) : ℕ :=
  (header.zip r).countP fun p => !(ign.contains p.1) && p.2.isSome

/-- `Cleaner.remove_nulls` (Cleaner.py lines 139-182): `None` threshold
returns the frame unchanged; a threshold outside [0,1] raises (`none`);
otherwise rows are kept when the non-null count among considered columns
divided by `max(1, width - #matched_ignored)` is at least the threshold.
(The source's `if cols is None: return lf` branch is dead code — the helper
never returns `None`.) -/
def Cleaner.remove_nulls (fr : Frame) (cols_to_ignore : ColsArg)
    (non_null_threshold : Option ℚ) : Option Frame :=
  match non_null_threshold with
  | none => some fr
  | some t =>
    if t < 0 ∨ 1 < t then none
    else
      let cols := cols_from_provided_cols fr cols_to_ignore
      some { fr with rows := fr.rows.filter (fun r =>
        decide (t ≤ (rowNonNullCount fr.header cols r : ℚ) /
          ((max 1 (fr.header.length - cols.length) : ℕ) : ℚ))) }

/-- The number of considered (non-ignored) columns. -/
def consideredCount (header ign : List String) : ℕ :=
  (header.filter fun c => !(ign.contains c)).length

lemma cols_from_provided_subset (fr : Frame) (spec : ColsArg) :
    ∀ c ∈ cols_from_provided_cols fr spec, c ∈ fr.header := by
  intro c hc
  cases spec with
  | one s => exact (List.mem_filter.mp hc).1
  | many l =>
    have := (List.mem_filter.mp hc).2
    exact List.elem_iff.mp this
  | null => cases hc

lemma consideredCount_eq {header ign : List String} (hh : header.Nodup)
    (hi : ign.Nodup) (hsub : ∀ c ∈ ign, c ∈ header) :
    consideredCount header ign = header.length - ign.length := by
  have hinlen : (header.filter fun c => ign.contains c).length = ign.length := by
    have hperm : (header.filter fun c => ign.contains c).Perm ign := by
      rw [List.perm_ext_iff_of_nodup (hh.filter _) hi]
      intro a
      rw [List.mem_filter]
      constructor
      · rintro ⟨_, h2⟩
        exact List.elem_iff.mp h2
      · intro ha
        exact ⟨hsub a ha, List.elem_iff.mpr ha⟩
    exact hperm.length_eq
  have hsplit := List.length_eq_countP_add_countP (fun c => ign.contains c) header
  have h1 : List.countP (fun c => ign.contains c) header =
      (header.filter fun c => ign.contains c).length :=
    List.countP_eq_length_filter _ _
  have h2 : List.countP (fun c => decide ¬(ign.contains c) = true) header =
      consideredCount header ign := by
    rw [consideredCount, ← List.countP_eq_length_filter]
    apply List.countP_congr
    intro c _
    simp
  omega

lemma consideredCount_pos_cast {header ign : List String}
    (h : 1 ≤ consideredCount header ign) :
    (0 : ℚ) < (consideredCount header ign : ℚ) := by
  exact_mod_cast Nat.lt_of_lt_of_le Nat.zero_lt_one h

/-- C5: `remove_nulls` keeps a row iff the fraction of non-null values among
the considered columns is at least the threshold; threshold 0 keeps all
rows; threshold 1 keeps only rows that are fully dense on the considered
columns; a threshold outside [0,1] raises; `None` threshold is a no-op. -/
theorem C5_remove_nulls_threshold :
    (∀ (fr : Frame) (spec : ColsArg) (t : ℚ),
      0 ≤ t → t ≤ 1 → fr.header.Nodup → (cols_from_provided_cols fr spec).Nodup →
      1 ≤ consideredCount fr.header (cols_from_provided_cols fr spec) →
      ∃ fr2, Cleaner.remove_nulls fr spec (some t) = some fr2 ∧
        fr2.header = fr.header ∧
        fr2.rows = fr.rows.filter (fun r => decide (t ≤
          (rowNonNullCount fr.header (cols_from_provided_cols fr spec) r : ℚ) /
          (consideredCount fr.header (cols_from_provided_cols fr spec) : ℚ))) ∧
        (∀ r, r ∈ fr2.rows ↔ r ∈ fr.rows ∧ t ≤
          (rowNonNullCount fr.header (cols_from_provided_cols fr spec) r : ℚ) /
          (consideredCount fr.header (cols_from_provided_cols fr spec) : ℚ))) ∧
    (∀ (fr : Frame) (spec : ColsArg),
      Cleaner.remove_nulls fr spec (some 0) = some fr) ∧
    (∀ (fr : Frame) (spec : ColsArg),
      fr.header.Nodup → (cols_from_provided_cols fr spec).Nodup →
      1 ≤ consideredCount fr.header (cols_from_provided_cols fr spec) →
      (∀ r ∈ fr.rows, r.length = fr.header.length) →
      ∀ fr2, Cleaner.remove_nulls fr spec (some 1) = some fr2 →
        ∀ r ∈ fr2.rows, ∀ p ∈ fr.header.zip r,
          !((cols_from_provided_cols fr spec).contains p.1) → p.2.isSome = true) ∧
    (∀ (fr : Frame) (spec : ColsArg) (t : ℚ),
      t < 0 ∨ 1 < t → Cleaner.remove_nulls fr spec (some t) = none) ∧
    (∀ (fr : Frame) (spec : ColsArg),
      Cleaner.remove_nulls fr spec none = some fr) := by
  have keylen : ∀ (fr : Frame) (spec : ColsArg),
      fr.header.Nodup → (cols_from_provided_cols fr spec).Nodup →
      fr.header.length - (cols_from_provided_cols fr spec).length =
        consideredCount fr.header (cols_from_provided_cols fr spec) := by
    intro fr spec hh hd
    rw [consideredCount_eq hh hd (cols_from_provided_subset fr spec)]
  have hmain : ∀ (fr : Frame) (spec : ColsArg) (t : ℚ),
      0 ≤ t → t ≤ 1 → fr.header.Nodup → (cols_from_provided_cols fr spec).Nodup →
      1 ≤ consideredCount fr.header (cols_from_provided_cols fr spec) →
      Cleaner.remove_nulls fr spec (some t) =
        some { fr with rows := fr.rows.filter (fun r => decide (t ≤
          (rowNonNullCount fr.header (cols_from_provided_cols fr spec) r : ℚ) /
          (consideredCount fr.header (cols_from_provided_cols fr spec) : ℚ))) } := by
    intro fr spec t h0 h1 hh hd hc
    simp only [Cleaner.remove_nulls]
    rw [if_neg (by rintro (h | h) <;> linarith)]
    congr 2
    apply List.filter_congr
    intro r _
    rw [decide_eq_decide]
    have hden : (max 1 (fr.header.length - (cols_from_provided_cols fr spec).length) : ℕ) =
        consideredCount fr.header (cols_from_provided_cols fr spec) := by
      rw [keylen fr spec hh hd]
      omega
    rw [hden]
  refine ⟨?_, ?_, ?_, ?_, ?_⟩
  · intro fr spec t h0 h1 hh hd hc
    refine ⟨_, hmain fr spec t h0 h1 hh hd hc, rfl, rfl, ?_⟩
    intro r
    rw [List.mem_filter, decide_eq_true_eq]
  · intro fr spec
    simp only [Cleaner.remove_nulls]
    rw [if_neg (by rintro (h | h) <;> linarith)]
    obtain ⟨hh, rr⟩ := fr
    simp only [Option.some.injEq, Frame.mk.injEq, true_and]
    rw [List.filter_eq_self]
    intro r _
    rw [decide_eq_true_eq]
    positivity
  · intro fr spec hh hd hc hrows fr2 hfr2 r hr p hp hpcons
    rw [hmain fr spec 1 (by norm_num) le_rfl hh hd hc] at hfr2
    cases hfr2
    rcases List.mem_filter.mp hr with ⟨hrmem, hkept⟩
    rw [decide_eq_true_eq,
      one_le_div (consideredCount_pos_cast hc)] at hkept
    have hcount : consideredCount fr.header (cols_from_provided_cols fr spec) ≤
        rowNonNullCount fr.header (cols_from_provided_cols fr spec) r := by
      exact_mod_cast hkept
    set ign := cols_from_provided_cols fr spec with hign
    set z := fr.header.zip r with hz
    have hmapfst : z.map Prod.fst = fr.header := by
      rw [hz]
      exact List.map_fst_zip _ _ (by rw [hrows r hrmem])
    have hzflen : (z.filter fun p => !(ign.contains p.1)).length =
        consideredCount fr.header ign := by
      rw [← List.countP_eq_length_filter, consideredCount,
        ← List.countP_eq_length_filter, ← hmapfst, List.countP_map]
      rfl
    have hcnt2 : rowNonNullCount fr.header ign r =
        (z.filter fun p => !(ign.contains p.1)).countP fun p => p.2.isSome := by
      rw [rowNonNullCount, List.countP_filter]
      apply List.countP_congr
      intro p _
      constructor
      · intro h
        rw [Bool.and_comm] at h
        exact h
      · intro h
        rw [Bool.and_comm] at h
        exact h
    have hle : (z.filter fun p => !(ign.contains p.1)).countP (fun p => p.2.isSome) ≤
        (z.filter fun p => !(ign.contains p.1)).length := List.countP_le_length _
    have heq : (z.filter fun p => !(ign.contains p.1)).countP (fun p => p.2.isSome) =
        (z.filter fun p => !(ign.contains p.1)).length := by omega
    have hall := List.countP_eq_length.mp heq
    exact hall p (List.mem_filter.mpr ⟨hp, hpcons⟩)
  · intro fr spec t ht
    simp only [Cleaner.remove_nulls]
    rw [if_pos ht]
  · intro fr spec
    rfl

/-- Witness for C5: a two-column frame with one half-dense row; threshold
1/2 keeps it, threshold 2 raises, `None` is a no-op. -/
theorem C5_remove_nulls_threshold_witness :
    (∃ fr2,
      Cleaner.remove_nulls ⟨["a", "b"], [[some 1, none], [none, none]]⟩
        ColsArg.null (some (1/2)) = some fr2 ∧
      fr2.header = ["a", "b"] ∧
      ([some 1, none] ∈ fr2.rows ↔ True)) ∧
    Cleaner.remove_nulls ⟨["a", "b"], [[some 1, none], [none, none]]⟩
      ColsArg.null (some 2) = none ∧
    Cleaner.remove_nulls ⟨["a", "b"], [[some 1, none], [none, none]]⟩
      ColsArg.null none = some ⟨["a", "b"], [[some 1, none], [none, none]]⟩ := by
  refine ⟨?_, ?_, ?_⟩
  · obtain ⟨fr2, h1, h2, h3, h4⟩ :=
      C5_remove_nulls_threshold.1 ⟨["a", "b"], [[some 1, none], [none, none]]⟩
        ColsArg.null (1/2) (by norm_num) (by norm_num) (by decide) (by decide)
        (by decide)
    refine ⟨fr2, h1, h2, ?_⟩
    rw [h4]
    constructor
    · intro _
      trivial
    · intro _
      refine ⟨by decide, ?_⟩
      norm_num [rowNonNullCount, consideredCount, cols_from_provided_cols,
        List.countP, List.countP.go]
  · exact C5_remove_nulls_threshold.2.2.2.1 _ ColsArg.null 2 (by norm_num)
  · exact C5_remove_nulls_threshold.2.2.2.2 _ ColsArg.null

/-- polars `LazyFrame.unique()` with its default parameters (`keep="any"`,
`maintain_order=False`): the engine may return the distinct rows in any
order, keeping an arbitrary representative of each duplicate group.
Embedded as the relation between the input rows and the admissible outputs:
some duplicate-free selection `l` of the input rows covering every row
value, output in some order. -/
def plUnique (rows out : List (List (Option ℚ))) : Prop :=
  ∃ l, l.Sublist rows ∧ l.Nodup ∧ (∀ r ∈ rows, r ∈ l) ∧ out.Perm l

/-- `Cleaner.remove_duplicates` (Cleaner.py lines 184-200): `lf.unique()`
on the whole frame, as an input/output relation. -/
def Cleaner.remove_duplicates (fr fr2 : Frame) : Prop :=
  fr2.header = fr.header ∧ plUnique fr.rows fr2.rows

/-- Modelled from the spec's words (§4.2 "first occurrence wins, order
otherwise preserved"), for comparison with the polars semantics. -/
def dedupFirstOccurrence (rows : List (List (Option ℚ))) : List (List (Option ℚ)) :=
  rows.foldl (fun acc r => if acc.contains r then acc else acc ++ [r]) []

/-- C7 counterexample: on the duplicate-free frame with rows `[[1], [2]]`,
the output with rows `[[2], [1]]` is admissible for `lf.unique()` (polars
does not guarantee row order with `maintain_order=False`), yet it is not
the first-occurrence, order-preserving deduplication `[[1], [2]]`. -/
theorem C7_counterexample_order :
    Cleaner.remove_duplicates ⟨["a"], [[some 1], [some 2]]⟩
      ⟨["a"], [[some 2], [some 1]]⟩ ∧
    (⟨["a"], [[some 2], [some 1]]⟩ : Frame).rows ≠
      dedupFirstOccurrence (⟨["a"], [[some 1], [some 2]]⟩ : Frame).rows := by
  constructor
  · exact ⟨rfl, [[some 1], [some 2]], List.Sublist.refl _, by decide,
      fun r hr => hr, List.Perm.swap _ _ _⟩
  · decide

/-- C7 as amended: `remove_duplicates` deduplicates rows by full-row
equality — every admissible output contains each distinct input row exactly
once and preserves the header — but which occurrence is kept and the output
row order are unspecified. -/
theorem C7_remove_duplicates_dedup :
    ∀ fr fr2, Cleaner.remove_duplicates fr fr2 →
      fr2.header = fr.header ∧ fr2.rows.Nodup ∧
      (∀ r, r ∈ fr2.rows ↔ r ∈ fr.rows) := by
  rintro fr fr2 ⟨hh, l, hsub, hnodup, hcover, hperm⟩
  refine ⟨hh, hperm.nodup_iff.mpr hnodup, ?_⟩
  intro r
  constructor
  · intro hr
    exact hsub.subset (hperm.mem_iff.mp hr)
  · intro hr
    exact hperm.mem_iff.mpr (hcover r hr)

/-- Witness for C7 (amended): the permuted output above is duplicate-free
and has the same row set as the input. -/
theorem C7_remove_duplicates_dedup_witness :
    (⟨["a"], [[some 2], [some 1]]⟩ : Frame).rows.Nodup ∧
    (∀ r, r ∈ (⟨["a"], [[some 2], [some 1]]⟩ : Frame).rows ↔
      r ∈ (⟨["a"], [[some 1], [some 2]]⟩ : Frame).rows) := by
  have h := C7_remove_duplicates_dedup ⟨["a"], [[some 1], [some 2]]⟩
    ⟨["a"], [[some 2], [some 1]]⟩
    ⟨rfl, [[some 1], [some 2]], List.Sublist.refl _, by decide,
      fun r hr => hr, List.Perm.swap _ _ _⟩
  exact ⟨h.2.1, h.2.2⟩

/-! ## Casters (transformers/time_series/casters.py)

The STL decomposition is an external statistics capability; `fit` is
embedded as a function of the trend and seasonal components the (single)
STL call produces.  The source passes the whole input `x_new` — not column
`i` — to STL on every loop iteration, so one decomposition parameterizes
the state stored for all columns. -/

/-- numpy basic slice `a[start :: step]` (`step ≥ 1`). -/
def npSlice (l : List ℚ) (start step : ℕ) : List ℚ :=
  (((List.range l.length).filter fun i =>
    decide (start ≤ i) && decide ((i - start) % step = 0)).map fun i => l.getD i 0)

/-- numpy `mean` of a 1-D array (the empty case, NaN in numpy, is unused
by the claims). -/
def npMean (l : List ℚ) : ℚ := l.sum / (l.length : ℚ)

/-- The trend slope stored by `BaseCaster.fit` (casters.py lines 53-55):
`(stl_res.trend[0] - stl_res.trend[-1]) / stl_res.trend.shape[0]`. -/
def BaseCaster.fitTrend (trend : List ℚ) : ℚ :=
  (trend.headD 0 - trend.getLastD 0) / (trend.length : ℚ)

/-- The seasonal cycle stored by `BaseCaster.fit` (casters.py lines 56-58):
`[stl_res.seasonal[j :: j + 1].mean() for j in range(self.period)]` — note
the slice STEP is `j + 1`, not the period. -/
def BaseCaster.fitCycles (period : ℕ) (seasonal : List ℚ) : List ℚ :=
  (List.range period).map fun j => npMean (npSlice seasonal j (j + 1))

/-- `BaseCaster.fit` (casters.py lines 30-61) as a function of the STL
components: per-column trends and cycles (identical across columns, see
module comment) plus the `is_fitted` flag it sets. -/
def BaseCaster.fit (ncols period : ℕ) (trend seasonal : List ℚ) :
    List ℚ × List (List ℚ) × Bool :=
  (List.replicate ncols (BaseCaster.fitTrend trend),
   List.replicate ncols (BaseCaster.fitCycles period seasonal),
   true)

/-- Modelled from the spec: the per-phase seasonal mean that §4.8 says
`fit` stores — "mean of all seasonal values sharing that phase modulo the
period", i.e. the mean of `seasonal[j :: period]` — for comparison with
`BaseCaster.fitCycles`. -/
def specPhaseMean (period : ℕ) (seasonal : List ℚ) (j : ℕ) : ℚ :=
  npMean (npSlice seasonal j period)

/-- C3 evaluation at the failing input: for the monthly period (12) and the
seasonal component `[1, 0, 0, ..., 0]` of length 24, the code stores
`cycle[0] = mean(seasonal[0 :: 1]) = 1/24` (the mean of the whole seasonal
series) where the claim requires the phase-0 mean `mean(seasonal[0],
seasonal[12]) = 1/2`; the trend-slope half of the claim matches the code
(`fitTrend [4, 2] = (4 - 2) / 2 = 1`). -/
theorem C3_fit_cycle_slice_eval :
    (BaseCaster.fitCycles 12 ((1 : ℚ) :: List.replicate 23 0)).getD 0 0 = 1 / 24 ∧
    specPhaseMean 12 ((1 : ℚ) :: List.replicate 23 0) 0 = 1 / 2 ∧
    (BaseCaster.fitCycles 12 ((1 : ℚ) :: List.replicate 23 0)).getD 0 0 ≠
      specPhaseMean 12 ((1 : ℚ) :: List.replicate 23 0) 0 ∧
    (BaseCaster.fit 1 12 [(4 : ℚ), 2] ((1 : ℚ) :: List.replicate 23 0)).1 = [1] := by
  refine ⟨?_, ?_, ?_, ?_⟩ <;> with_unfolding_all decide

/-- The literal period argument of `BaseCaster.__init__`. -/
inductive PeriodLit
  | daily
  | monthly
  | yearly

/-- The period length selected by the `match` in `__init__` (casters.py
lines 17-23). -/
def periodOf : PeriodLit → ℕ
  | .daily => 365
  | .monthly => 12
  | .yearly => 1

/-- The mutable state of a `BaseCaster` instance. -/
structure CasterState where
  period : ℕ
  steps : ℕ
  only_return_extended : Bool
  is_fitted : Bool
  trends : Option (List ℚ)
  cycles : Option (List (List ℚ))

/-- `BaseCaster.__init__` (casters.py lines 11-28): `is_fitted` starts
false, `trends` and `cycles` start `None`. -/
def CasterState.init (p : PeriodLit) (steps : ℕ) (oe : Bool) : CasterState :=
  ⟨periodOf p, steps, oe, false, none, none⟩

/-- `ForeCaster.transform` (casters.py lines 104-144) on row-major 2-D
input: raises (`error`) unless the caster is fitted with stored trends and
cycles; otherwise appends `steps` rows whose column-`j` entry at step `i`
is `i * trends[j] + cycles[j][i % period]` (or returns only the extension).
The method reads the state and never writes it, so the embedding takes the
state immutably — a failed (or successful) call leaves it unchanged. -/
def ForeCaster.transform (s : CasterState) (X : List (List ℚ)) :
    Except Unit (List (List ℚ)) :=
  match s.is_fitted, s.trends, s.cycles with
  | true, some trends, some cycles =>
    let ncols := (X.headD []).length
    let x_ext := (List.range s.steps).map fun (i : ℕ) =>
      (List.range ncols).map fun (j : ℕ) =>
        (i : ℚ) * trends.getD j 0 + (cycles.getD j []).getD (i % s.period) 0
    .ok (if s.only_return_extended then x_ext else X ++ x_ext)
  | _, _, _ => .error ()

/-- `BackCaster.transform` (casters.py lines 157-198): as `ForeCaster` but
each of the `steps` new rows uses `(steps - i) * trends[j]` and the
extension is prepended. -/
def BackCaster.transform (s : CasterState) (X : List (List ℚ)) :
    Except Unit (List (List ℚ)) :=
  match s.is_fitted, s.trends, s.cycles with
  | true, some trends, some cycles =>
    let ncols := (X.headD []).length
    let x_ext := (List.range s.steps).map fun (i : ℕ) =>
      (List.range ncols).map fun (j : ℕ) =>
        ((s.steps - i : ℕ) : ℚ) * trends.getD j 0 +
          (cycles.getD j []).getD (i % s.period) 0
    .ok (if s.only_return_extended then x_ext else x_ext ++ X)
  | _, _, _ => .error ()

/-- C6: on any caster state on which `fit` has not succeeded (`is_fitted`
is still false — as in every freshly constructed instance), `transform`
raises a validation error immediately for both casters; the state, taken
immutably by the embedding because the method performs no writes, is
unchanged by the failed call.  Freshly initialized states are unfitted with
`trends = cycles = None`. -/
theorem C6_transform_before_fit_raises :
    (∀ (s : CasterState) (X : List (List ℚ)), s.is_fitted = false →
      ForeCaster.transform s X = .error () ∧
      BackCaster.transform s X = .error ()) ∧
    (∀ (p : PeriodLit) (steps : ℕ) (oe : Bool),
      (CasterState.init p steps oe).is_fitted = false ∧
      (CasterState.init p steps oe).trends = none ∧
      (CasterState.init p steps oe).cycles = none) := by
  constructor
  · intro s X h
    constructor
    · unfold ForeCaster.transform
      rw [h]
    · unfold BackCaster.transform
      rw [h]
  · intro p steps oe
    exact ⟨rfl, rfl, rfl⟩

/-- Witness for C6: a freshly constructed monthly ForeCaster/BackCaster
rejects `transform` on a concrete input. -/
theorem C6_transform_before_fit_raises_witness :
    ForeCaster.transform (CasterState.init .monthly 24 false) [[1]] = .error () ∧
    BackCaster.transform (CasterState.init .monthly 24 false) [[1]] = .error () :=
  (C6_transform_before_fit_raises.1 (CasterState.init .monthly 24 false) [[1]] rfl)

/-! ## MultiTimeSeriesGapFiller (transformers/time_series/fillers.py)

Typed frame model: one designated Date column (month index as `ℤ`,
non-null — the single time column, as in the repository's usage) plus
nullable data columns of the polars logical types the filler dispatches on.
`upsample(every="1mo")` is modelled on the month index. -/

/-- polars `fill_null(strategy="forward")`. -/
def ffillGo {α : Type} (last : Option α) : List (Option α) → List (Option α)
  | [] => []
  | none :: t => last :: ffillGo last t
  | some a :: t => some a :: ffillGo (some a) t

/-- Forward fill: each null takes the most recent earlier non-null value. -/
def ffill {α : Type} (l : List (Option α)) : List (Option α) := ffillGo none l

/-- Backward fill: each null takes the nearest later non-null value. -/
def bfill {α : Type} (l : List (Option α)) : List (Option α) :=
  (ffill l.reverse).reverse

/-- The fill strategies the gap filler passes to polars `fill_null`. -/
inductive FillStrategy
  | forward
  | backward
  | minimum
  | maximum
  | meanStrat
  | zero
  | one

/-- polars `fill_null(strategy=...)` on a numeric-like (duration/time)
column: forward/backward fills, min/max/mean fill with the aggregate of the
non-null values (an all-null column stays null), zero/one fill literals. -/
def fillWithStrategy (st : FillStrategy) (l : List (Option ℚ)) : List (Option ℚ) :=
  match st with
  | .forward => ffill l
  | .backward => bfill l
  | .minimum =>
    match (l.filterMap id).min? with
    | none => l
    | some v => l.map fun c => some (c.getD v)
  | .maximum =>
    match (l.filterMap id).max? with
    | none => l
    | some v => l.map fun c => some (c.getD v)
  | .meanStrat =>
    match meanOpt l with
    | none => l
    | some v => l.map fun c => some (c.getD v)
  | .zero => l.map fun c => some (c.getD 0)
  | .one => l.map fun c => some (c.getD 1)

/-- A typed polars column as dispatched by the gap filler's selectors. -/
inductive TCol
  | dateCol (name : String) (vals : List ℤ)
  | numCol (name : String) (vals : List (Option ℚ))
  | strCol (name : String) (vals : List (Option String))
  | catCol (name : String) (vals : List (Option String))
  | boolCol (name : String) (vals : List (Option Bool))
  | binCol (name : String) (vals : List (Option (List ℕ)))
  | durCol (name : String) (vals : List (Option ℚ))
  | timeCol (name : String) (vals : List (Option ℚ))
deriving DecidableEq

/-- A typed frame: ordered columns of equal length. -/
structure TFrame where
  cols : List TCol
deriving DecidableEq

/-- The values of the designated date column, when present and Date-typed. -/
def findDateVals (df : TFrame) (date_col : String) : Option (List ℤ) :=
  df.cols.findSome? fun c =>
    match c with
    | .dateCol n vals => if n = date_col then some vals else none
    | _ => none

/-- Stable argsort of the date values (`df.sort(by=[date_col])`). -/
def sortIdxByDate (d : List ℤ) : List ℕ :=
  (List.range d.length).mergeSort fun i j =>
    decide (d.getD i 0 < d.getD j 0 ∨ (d.getD i 0 = d.getD j 0 ∧ i ≤ j))

/-- The month axis `upsample(every="1mo")` produces: every month from the
first to the last (sorted) date. -/
def monthsRange (d : List ℤ) : List ℤ :=
  match d.head?, d.getLast? with
  | some a, some b => (List.range (b - a + 1).toNat).map fun (k : ℕ) => a + k
  | _, _ => []

/-- For each month of the upsampled axis, the source row holding that date
(if any; months with no source row become null rows). -/
def upsampleIdx (d : List ℤ) : List (Option ℕ) :=
  (monthsRange d).map fun m => d.findIdx? fun x => decide (x = m)

/-- Permute one column by a row-index list (the sort step). -/
def TCol.applyPerm (perm : List ℕ) : TCol → TCol
  | .dateCol n v => .dateCol n (perm.map fun j => v.getD j 0)
  | .numCol n v => .numCol n (perm.map fun j => v.getD j none)
  | .strCol n v => .strCol n (perm.map fun j => v.getD j none)
  | .catCol n v => .catCol n (perm.map fun j => v.getD j none)
  | .boolCol n v => .boolCol n (perm.map fun j => v.getD j none)
  | .binCol n v => .binCol n (perm.map fun j => v.getD j none)
  | .durCol n v => .durCol n (perm.map fun j => v.getD j none)
  | .timeCol n v => .timeCol n (perm.map fun j => v.getD j none)

/-- Reindex a nullable column along the upsampled month axis. -/
def reindexOpt {α : Type} (idx : List (Option ℕ)) (vals : List (Option α)) :
    List (Option α) :=
  idx.map fun oi =>
    match oi with
    | some j => vals.getD j none
    | none => none

/-- The upsample step on one column: the date column becomes the month
axis, every data column is reindexed with null rows for missing months. -/
def TCol.applyUpsample (idx : List (Option ℕ)) (months : List ℤ) : TCol → TCol
  | .dateCol n _ => .dateCol n months
  | .numCol n v => .numCol n (reindexOpt idx v)
  | .strCol n v => .strCol n (reindexOpt idx v)
  | .catCol n v => .catCol n (reindexOpt idx v)
  | .boolCol n v => .boolCol n (reindexOpt idx v)
  | .binCol n v => .binCol n (reindexOpt idx v)
  | .durCol n v => .durCol n (reindexOpt idx v)
  | .timeCol n v => .timeCol n (reindexOpt idx v)

/-- The two string-strategy literals of the gap filler. -/
inductive StringStrategy
  | forward_then_backward
  | backward_then_forward

/-- `MultiTimeSeriesGapFiller.__init__` configuration (fillers.py lines
12-77) with the source's defaults; the typed fields make the constructor's
literal validation always pass. -/
structure GapFillerCfg where
  binary_value : List ℕ := [48]
  boolean_value : Bool := false
  duration_strategy : FillStrategy := .meanStrat
  string_strategy : StringStrategy := .backward_then_forward
  time_strategy : FillStrategy := .meanStrat

/-- The type-dispatched `with_columns` fill (fillers.py lines 95-102):
numeric columns via `Extrapolator.fill_timeseries` (which may raise, hence
`Option`), binary/boolean via literals, duration/time via the configured
strategies; string/categorical columns are not touched here. -/
def TCol.applyTypeFill (g : GapFillerCfg) (ext : Extrapolator) :
    TCol → Option TCol
  | .numCol n v => (ext.fill_timeseries v).map fun v2 => .numCol n v2
  | .binCol n v => some (.binCol n (v.map fun c => some (c.getD g.binary_value)))
  | .boolCol n v => some (.boolCol n (v.map fun c => some (c.getD g.boolean_value)))
  | .durCol n v => some (.durCol n (fillWithStrategy g.duration_strategy v))
  | .timeCol n v => some (.timeCol n (fillWithStrategy g.time_strategy v))
  | c => some c

/-- The `match self.string_strategy` block (fillers.py lines 104-120): it
selects `cs.duration()` — NOT the string/categorical columns — and applies
the two-stage forward/backward fallback to duration columns only. -/
def TCol.applyStringStrategyStep (g : GapFillerCfg) : TCol → TCol
  | .durCol n v =>
    match g.string_strategy with
    | .forward_then_backward => .durCol n (bfill (ffill v))
    | .backward_then_forward => .durCol n (ffill (bfill v))
  | c => c

/-- `MultiTimeSeriesGapFiller.fill` (fillers.py lines 79-122): sort by the
date column, upsample to the monthly axis, apply the type-dispatched fills,
then the string-strategy fallback block (which, per the source, touches
only duration columns).  Column order and identity are preserved by
construction; a missing date column raises (`none`). -/
def MultiTimeSeriesGapFiller.fill (g : GapFillerCfg) (df : TFrame)
    (date_col : String) : Option TFrame :=
  match findDateVals df date_col with
  | none => none
  | some d =>
    let perm := sortIdxByDate d
    let sorted := df.cols.map (TCol.applyPerm perm)
    let dSorted := perm.map fun j => d.getD j 0
    let months := monthsRange dSorted
    let idx := upsampleIdx dSorted
    let up := sorted.map (TCol.applyUpsample idx months)
    let ext : Extrapolator :=
      { interpolation_method := .linear,
        fill_value_if_only_null_values := some 0,
        val_before_first_non_null_val := some 0,
        val_after_last_non_null_val := none }
    match up.mapM (TCol.applyTypeFill g ext) with
    | none => none
    | some cols2 => some ⟨cols2.map (TCol.applyStringStrategyStep g)⟩

/-- The C4 failing input: three consecutive months, a string column with an
interior null. -/
def exGapFrame : TFrame :=
  ⟨[.dateCol "date" [0, 1, 2], .strCol "s" [some "a", none, some "b"]]⟩

/-- C4 evaluation at the failing input: `fill` leaves the string column
untouched — its interior null survives although the column is not entirely
null — because the string-strategy fallback block selects `cs.duration()`
instead of the string/categorical columns. -/
theorem C4_string_fallback_not_applied :
    MultiTimeSeriesGapFiller.fill {} exGapFrame "date" = some exGapFrame ∧
    TCol.strCol "s" [some "a", none, some "b"] ∈ exGapFrame.cols ∧
    none ∈ [some "a", none, some "b"] ∧
    ¬ ([some "a", none, some "b"] : List (Option String)).all fun c => c = none := by
  refine ⟨?_, ?_, ?_, ?_⟩ <;> with_unfolding_all decide

end DSL
